import Mathlib

set_option maxHeartbeats 1000000
set_option maxRecDepth 4000

/-!
Verification model of the ETL normalization and warehouse-loading pipeline
of the BUSINESS-INTELLIGENCE project.

The source programs are Python (`src/bi/warehouse.py`, `src/main_pipeline.py`)
working over SQLite.  The shallow embedding below models:

* JSON / Python values as the inductive type `PyVal` (numbers as exact
  rationals: the source's float arithmetic is modelled over `ℚ`, so the
  literal constants of the source, e.g. `0.45359237`, act exactly);
* a SQLite warehouse as in-memory tables of rows; SQL `NULL` is `PyVal.none`;
  `INSERT OR IGNORE` conflict detection follows SQLite semantics
  (UNIQUE constraints compare with NULL-distinct equality; NOT NULL
  violations also make an `OR IGNORE` insert a no-op);
* a database connection as the warehouse plus the connection-level
  `sqlite3_last_insert_rowid` value (what Python's `cursor.lastrowid`
  reports after an INSERT statement, whether or not a row was inserted);
* Python exceptions as `Except String _` (the string names the exception);
  an uncaught exception aborts the batch and `with sqlite3.connect(...)`
  rolls the transaction back, so an aborted load leaves no new state.

SQL parameter binding of non-scalar values (which would raise
`sqlite3.InterfaceError`) is outside the model: staged payload fields bound
as SQL parameters are carried as `PyVal` and compared by value.
-/

/-- A Python/JSON value as handled by the pipeline.  `none` is Python's
`None` (and SQL `NULL`); numbers are modelled as exact rationals. -/
inductive PyVal : Type where
  | none : PyVal
  | bool (b : Bool) : PyVal
  | num (q : ℚ) : PyVal
  | str (s : String) : PyVal
  | list (xs : List PyVal) : PyVal
  | dict (fields : List (String × PyVal)) : PyVal

mutual

/-- Decidable equality on `PyVal` (written by hand: the nested inductive has
no derived handler). -/
def PyVal.decEq : (a b : PyVal) → Decidable (a = b)
| .none, .none => isTrue rfl
| .bool a, .bool b =>
    if h : a = b then isTrue (by rw [h])
    else isFalse (by intro hh; injection hh with h2; exact h h2)
| .num a, .num b =>
    if h : a = b then isTrue (by rw [h])
    else isFalse (by intro hh; injection hh with h2; exact h h2)
| .str a, .str b =>
    if h : a = b then isTrue (by rw [h])
    else isFalse (by intro hh; injection hh with h2; exact h h2)
| .list xs, .list ys =>
    match PyVal.decEqList xs ys with
    | isTrue h => isTrue (by rw [h])
    | isFalse h => isFalse (by intro hh; injection hh with h2; exact h h2)
| .dict xs, .dict ys =>
    match PyVal.decEqFields xs ys with
    | isTrue h => isTrue (by rw [h])
    | isFalse h => isFalse (by intro hh; injection hh with h2; exact h h2)
| .none, .bool _ => isFalse (fun h => nomatch h)
| .none, .num _ => isFalse (fun h => nomatch h)
| .none, .str _ => isFalse (fun h => nomatch h)
| .none, .list _ => isFalse (fun h => nomatch h)
| .none, .dict _ => isFalse (fun h => nomatch h)
| .bool _, .none => isFalse (fun h => nomatch h)
| .bool _, .num _ => isFalse (fun h => nomatch h)
| .bool _, .str _ => isFalse (fun h => nomatch h)
| .bool _, .list _ => isFalse (fun h => nomatch h)
| .bool _, .dict _ => isFalse (fun h => nomatch h)
| .num _, .none => isFalse (fun h => nomatch h)
| .num _, .bool _ => isFalse (fun h => nomatch h)
| .num _, .str _ => isFalse (fun h => nomatch h)
| .num _, .list _ => isFalse (fun h => nomatch h)
| .num _, .dict _ => isFalse (fun h => nomatch h)
| .str _, .none => isFalse (fun h => nomatch h)
| .str _, .bool _ => isFalse (fun h => nomatch h)
| .str _, .num _ => isFalse (fun h => nomatch h)
| .str _, .list _ => isFalse (fun h => nomatch h)
| .str _, .dict _ => isFalse (fun h => nomatch h)
| .list _, .none => isFalse (fun h => nomatch h)
| .list _, .bool _ => isFalse (fun h => nomatch h)
| .list _, .num _ => isFalse (fun h => nomatch h)
| .list _, .str _ => isFalse (fun h => nomatch h)
| .list _, .dict _ => isFalse (fun h => nomatch h)
| .dict _, .none => isFalse (fun h => nomatch h)
| .dict _, .bool _ => isFalse (fun h => nomatch h)
| .dict _, .num _ => isFalse (fun h => nomatch h)
| .dict _, .str _ => isFalse (fun h => nomatch h)
| .dict _, .list _ => isFalse (fun h => nomatch h)

/-- Decidable equality for lists of `PyVal`. -/
def PyVal.decEqList : (xs ys : List PyVal) → Decidable (xs = ys)
| [], [] => isTrue rfl
| [], _ :: _ => isFalse (fun h => nomatch h)
| _ :: _, [] => isFalse (fun h => nomatch h)
| x :: xs, y :: ys =>
    match PyVal.decEq x y with
    | isFalse h => isFalse (by intro hh; injection hh with h1 h2; exact h h1)
    | isTrue h1 =>
      match PyVal.decEqList xs ys with
      | isTrue h2 => isTrue (by rw [h1, h2])
      | isFalse h2 => isFalse (by intro hh; injection hh with ha hb; exact h2 hb)

/-- Decidable equality for association lists of `PyVal`. -/
def PyVal.decEqFields : (xs ys : List (String × PyVal)) → Decidable (xs = ys)
| [], [] => isTrue rfl
| [], _ :: _ => isFalse (fun h => nomatch h)
| _ :: _, [] => isFalse (fun h => nomatch h)
| (k, v) :: xs, (k2, v2) :: ys =>
    if hk : k = k2 then
      match PyVal.decEq v v2 with
      | isTrue hv =>
        match PyVal.decEqFields xs ys with
        | isTrue ht => isTrue (by rw [hk, hv, ht])
        | isFalse ht => isFalse (by intro hh; injection hh with h1 h2; exact ht h2)
      | isFalse hv =>
        isFalse (by intro hh; injection hh with h1 h2; injection h1 with ha hb; exact hv hb)
    else
      isFalse (by intro hh; injection hh with h1 h2; injection h1 with ha hb; exact hk ha)

end

instance : DecidableEq PyVal := PyVal.decEq

instance {ε α : Type} [DecidableEq ε] [DecidableEq α] : DecidableEq (Except ε α) := by
  intro a b
  cases a <;> cases b
  case error.error e1 e2 =>
    exact if h : e1 = e2 then isTrue (by rw [h])
      else isFalse (by intro hh; injection hh with h2; exact h h2)
  case ok.ok a1 a2 =>
    exact if h : a1 = a2 then isTrue (by rw [h])
      else isFalse (by intro hh; injection hh with h2; exact h h2)
  case error.ok e1 a2 => exact isFalse (fun h => nomatch h)
  case ok.error a1 e2 => exact isFalse (fun h => nomatch h)

/-- Python truthiness: `None`, `False`, `0`, `""`, `[]`, `{}` are falsy. -/
def truthy : PyVal → Bool
  | .none => false
  | .bool b => b
  | .num q => decide (q ≠ 0)
  | .str s => decide (s ≠ "")
  | .list xs => !xs.isEmpty
  | .dict fs => !fs.isEmpty

/-- `d.get(k)`: first binding of `k`, else `None`. -/
def pyGet (fs : List (String × PyVal)) (k : String) : PyVal :=
  match fs.find? (fun kv => kv.1 = k) with
  | some kv => kv.2
  | Option.none => PyVal.none

/-- `d.get(k, dflt)`. -/
def pyGetD (fs : List (String × PyVal)) (k : String) (dflt : PyVal) : PyVal :=
  match fs.find? (fun kv => kv.1 = k) with
  | some kv => kv.2
  | Option.none => dflt

/-- Python's short-circuit `a or b`. -/
def pyOr (a b : PyVal) : PyVal := if truthy a then a else b

/-- Model of Python's `str()` builtin, used only to feed `.lower()` before a
membership test against unit-keyword sets; for non-string values the exact
rendering is irrelevant (none of them renders as a unit keyword), so
container renderings are abbreviated. -/
def pyStr : PyVal → String
  | .none => "None"
  | .bool true => "True"
  | .bool false => "False"
  | .num q => toString q
  | .str s => s
  | .list _ => "[...]"
  | .dict _ => "\x7b...\x7d"

/-- ASCII lower-casing of one character (Python's `str.lower` restricted to
ASCII, which covers every keyword and reference string the pipeline
compares; implemented over code points so that proofs can evaluate it). -/
def charLower (c : Char) : Char :=
  if 'A' ≤ c ∧ c ≤ 'Z' then Char.ofNat (c.toNat + 32) else c

/-- Python's `s.lower()`. -/
def strLower (s : String) : String := String.mk (s.toList.map charLower)

/-- Strip leading and trailing whitespace from a character list. -/
def strTrimChars (cs : List Char) : List Char :=
  ((cs.dropWhile Char.isWhitespace).reverse.dropWhile Char.isWhitespace).reverse

/-- Python's `s.strip()`. -/
def strTrim (s : String) : String := String.mk (strTrimChars s.toList)

/-- Split a character list at every occurrence of `sep` (Python's
`s.split(sep)` for a one-character separator: keeps empty parts, returns
one part for the empty string). -/
def splitChars (sep : Char) : List Char → List (List Char)
  | [] => [[]]
  | c :: cs =>
    let rest := splitChars sep cs
    if c = sep then [] :: rest
    else
      match rest with
      | h :: t => (c :: h) :: t
      | [] => [[c]]

/-- Python's `s.split(sep)` for a one-character separator. -/
def strSplitChar (sep : Char) (s : String) : List String :=
  (splitChars sep s.toList).map String.mk

/-- Python's string `<` (lexicographic on code points). -/
def strLt (a b : String) : Bool := decide (a.toList < b.toList)

/-- `v.lower()` as an attribute access: only strings have `.lower`;
any other receiver raises `AttributeError`. -/
def lowerOrErr (v : PyVal) : Except String String :=
  match v with
  | .str s => .ok (strLower s)
  | _ => .error "AttributeError"

/-- Parse a decimal literal the way Python's `float()` accepts it:
optional surrounding whitespace, optional sign, digits with an optional
fractional part and an optional exponent.  (`inf`/`nan` literals and
underscore separators are not representable in the rational model and are
rejected.)  Returns `Option.none` where `float()` raises `ValueError`. -/
def parseFloat (s : String) : Option ℚ :=
  let cs := strTrimChars s.toList
  let sign : ℚ × List Char :=
    match cs with
    | '-' :: rest => (-1, rest)
    | '+' :: rest => (1, rest)
    | _ => (1, cs)
  let digits := fun (l : List Char) => l.takeWhile Char.isDigit
  let rest0 := sign.2
  let intPart := digits rest0
  let afterInt := rest0.drop intPart.length
  let fracPart :=
    match afterInt with
    | '.' :: r => some (digits r, r.drop (digits r).length)
    | _ => Option.none
  let mantDigits := intPart ++ (match fracPart with | some p => p.1 | Option.none => [])
  let afterMant := match fracPart with | some p => p.2 | Option.none => afterInt
  if mantDigits = [] then Option.none else
  let mantVal : ℚ :=
    (mantDigits.foldl (fun acc c => acc * 10 + (c.toNat - '0'.toNat)) (0 : ℚ))
  let fracLen : ℕ := match fracPart with | some p => p.1.length | Option.none => 0
  let base : ℚ := mantVal / (10 ^ fracLen)
  match afterMant with
  | [] => some (sign.1 * base)
  | 'e' :: r | 'E' :: r =>
    let esign : ℤ × List Char :=
      match r with
      | '-' :: rr => (-1, rr)
      | '+' :: rr => (1, rr)
      | _ => (1, r)
    let eDigits := digits esign.2
    if eDigits = [] ∨ esign.2.drop eDigits.length ≠ [] then Option.none
    else
      let eVal : ℕ := eDigits.foldl (fun acc c => acc * 10 + (c.toNat - '0'.toNat)) 0
      some (sign.1 * base * ((10 : ℚ) ^ (esign.1 * eVal)))
  | _ => Option.none

/-- Python's `float(x)` for the values the pipeline feeds it, with the
result `Option.none` standing for the `TypeError`/`ValueError` cases, which
every call site of the source catches (`except (TypeError, ValueError)`). -/
def pyFloat : PyVal → Option ℚ
  | .num q => some q
  | .bool true => some 1
  | .bool false => some 0
  | .str s => parseFloat s
  | _ => Option.none

/-- Python's 1-argument `round()`: round half to even, returning an integer. -/
def pyRound (q : ℚ) : ℤ :=
  let f : ℤ := ⌊q⌋
  let frac : ℚ := q - f
  if frac < 1/2 then f
  else if frac > 1/2 then f + 1
  else if f % 2 = 0 then f else f + 1

/-- Iterating a Python value (`for item in v`): lists yield their elements,
strings their characters (as 1-character strings), dicts their keys; numbers
and booleans are not iterable (`TypeError`). -/
def pyIter : PyVal → Except String (List PyVal)
  | .list xs => .ok xs
  | .str s => .ok (s.toList.map (fun c => .str (String.singleton c)))
  | .dict fs => .ok (fs.map (fun kv => .str kv.1))
  | _ => .error "TypeError"

/-! ### Unit normalizers (src/bi/warehouse.py, `_normalize_weight`,
`_normalize_age`, `_normalize_days_to_reaction`)

`_normalize_weight` and `_normalize_age` contain no uncaught raising
operation (`float()` failures are caught as `TypeError`/`ValueError`,
`str(unit).lower()` is total), so they are modelled as total functions.
`_normalize_days_to_reaction` computes `(timing.get("time_unit") or
"").lower()`, an attribute access that raises `AttributeError` on a truthy
non-string, and calls `.get` on its argument; it is modelled in `Except`. -/

def poundUnits : List String := ["lb", "lbs", "pound", "pounds"]

/-- `_normalize_weight(weight_value, weight_unit)` (lines 124-142). -/
def normalizeWeight (weightValue weightUnit : PyVal) : Option ℚ :=
  if weightValue = PyVal.none ∨ weightValue = PyVal.str "" then Option.none
  else
    let vu : PyVal × PyVal :=
      match weightValue with
      | .dict fs =>
        (pyOr (pyOr (pyOr (pyGet fs "min") (pyGet fs "max")) (pyGet fs "value")) (pyGet fs "weight"),
         pyOr weightUnit (pyGet fs "unit"))
      | _ => (weightValue, weightUnit)
    match pyFloat vu.1 with
    | Option.none => Option.none
    | some value =>
      if truthy vu.2 = false then some value
      else
        let u := strLower (pyStr vu.2)
        if u ∈ poundUnits then some (value * (45359237 / 100000000 : ℚ))
        else some value

/-- `_normalize_age(age_value, age_unit)` (lines 145-164). -/
def normalizeAge (ageValue ageUnit : PyVal) : Option ℚ :=
  if ageValue = PyVal.none ∨ ageValue = PyVal.str "" then Option.none
  else
    let vu : PyVal × PyVal :=
      match ageValue with
      | .dict fs =>
        (pyOr (pyOr (pyOr (pyGet fs "min") (pyGet fs "max")) (pyGet fs "value")) (pyGet fs "age"),
         pyOr ageUnit (pyGet fs "unit"))
      | _ => (ageValue, ageUnit)
    match pyFloat vu.1 with
    | Option.none => Option.none
    | some value =>
      if truthy vu.2 = false then some value
      else
        let u := strLower (pyStr vu.2)
        if u ∈ (["year", "years"] : List String) then some (value * 12)
        else if u ∈ (["day", "days"] : List String) then some (value / 30)
        else some value

def timingKey : String := "time_between_drug_administration_and_reaction"

/-- `_normalize_days_to_reaction(entry)` (lines 167-183).  The source reads
`entry.get(...)` (an `AttributeError` on a non-dict argument) and lowers
`(timing.get("time_unit") or "")`, which raises `AttributeError` when
`time_unit` is truthy but not a string; the unit is lowered before the
`float()` conversion is attempted, matching the source's statement order. -/
def normalizeDaysToReaction (entry : PyVal) : Except String (Option ℤ) :=
  match entry with
  | .dict fs =>
    match pyGet fs timingKey with
    | .dict ts =>
      match lowerOrErr (pyOr (pyGet ts "time_unit") (.str "")) with
      | .error e => .error e
      | .ok unit =>
        match pyFloat (pyGet ts "time_value") with
        | Option.none => .ok Option.none
        | some numeric =>
          if unit ∈ (["day", "days"] : List String) then .ok (some (pyRound numeric))
          else if unit ∈ (["week", "weeks"] : List String) then .ok (some (pyRound (numeric * 7)))
          else if unit ∈ (["month", "months"] : List String) then .ok (some (pyRound (numeric * 30)))
          else .ok Option.none
    | _ => .ok Option.none
  | _ => .error "AttributeError"

/-! ### Entity extractors (src/bi/warehouse.py, lines 186-239) -/

/-- The shared priority-key pattern: return the stripped value of the first
listed key whose value is a non-empty-after-strip string. -/
def firstStrKey (fs : List (String × PyVal)) : List String → Option String
  | [] => Option.none
  | k :: ks =>
    match pyGet fs k with
    | .str s => if strTrim s ≠ "" then some (strTrim s) else firstStrKey fs ks
    | _ => firstStrKey fs ks

/-- `_extract_breed_name(animal)` (lines 186-195). -/
def extractBreedName (animal : List (String × PyVal)) : Option String :=
  match pyGet animal "breed" with
  | .str s => if strTrim s = "" then Option.none else some (strTrim s)
  | .dict bfs => firstStrKey bfs ["breed_name", "breed_component", "name"]
  | _ => Option.none

/-- Common shape of `_extract_reactions` / `_extract_outcomes`: iterate
`entry.get(field, []) or []`; a dict item contributes the first matching
priority key, a string item contributes itself stripped (unconditionally),
anything else is skipped.  Iterating a truthy non-iterable raises
`TypeError`. -/
def extractNames (entry : List (String × PyVal)) (field : String)
    (keys : List String) : Except String (List String) :=
  match pyIter (pyOr (pyGetD entry field (.list [])) (.list [])) with
  | .error e => .error e
  | .ok items =>
    .ok (items.foldl (fun acc item =>
      match item with
      | .dict ifs =>
        match firstStrKey ifs keys with
        | some v => acc ++ [v]
        | Option.none => acc
      | .str s => acc ++ [strTrim s]
      | _ => acc) [])

/-- `_extract_reactions(entry)` (lines 198-209). -/
def extractReactions (entry : List (String × PyVal)) : Except String (List String) :=
  extractNames entry "reaction" ["veddra_term_name", "veddra_term", "reaction_name", "name"]

/-- `_extract_outcomes(entry)` (lines 212-223). -/
def extractOutcomes (entry : List (String × PyVal)) : Except String (List String) :=
  extractNames entry "outcome" ["medical_status", "outcome", "outcome_name", "name"]

/-- `_extract_active_ingredients(entry)` (lines 226-239): non-dict drug
entries are skipped; the ingredient list is
`drug.get("active_ingredients", []) or drug.get("active_ingredient", []) or []`. -/
def extractActiveIngredients (entry : List (String × PyVal)) : Except String (List String) :=
  match pyIter (pyOr (pyGetD entry "drug" (.list [])) (.list [])) with
  | .error e => .error e
  | .ok drugs =>
    drugs.foldlM (fun acc drug =>
      match drug with
      | PyVal.dict dfs =>
        match pyIter (pyOr (pyOr (pyGetD dfs "active_ingredients" (.list []))
            (pyGetD dfs "active_ingredient" (.list []))) (.list [])) with
        | .error e => .error e
        | .ok ings =>
          .ok (ings.foldl (fun acc2 ing =>
            match ing with
            | PyVal.dict ifs =>
              match pyGet ifs "name" with
              | .str s => if strTrim s ≠ "" then acc2 ++ [strTrim s] else acc2
              | _ => acc2
            | .str s => acc2 ++ [strTrim s]
            | _ => acc2) acc)
      | _ => .ok acc) []

/-! ### Warehouse model (src/bi/warehouse.py, `init_warehouse`,
`_get_or_create_dim`, `load_events_from_staging`)

A dimension table is a list of `(surrogate key, column values)` rows plus
the AUTOINCREMENT counter.  `PyVal.none` is SQL `NULL`.  A connection is a
warehouse plus `sqlite3_last_insert_rowid` (0 on a fresh connection). -/

/-- SQL `=` between two stored/bound values: `NULL` compares equal to
nothing (also the comparison used by UNIQUE constraints, under which two
NULLs are distinct). -/
def nonNullEq (a b : PyVal) : Bool :=
  decide (a ≠ PyVal.none) && decide (b ≠ PyVal.none) && decide (a = b)

/-- Column `i` of a row (total; absent columns read as `NULL`). -/
def getAt (vs : List PyVal) (i : Nat) : PyVal := vs.getD i PyVal.none

/-- The column layout a `_get_or_create_dim` call site works against:
number of columns in the `unique_cols` dict, the positions covered by the
table's UNIQUE constraint, and the positions declared NOT NULL. -/
structure DimSchema where
  ncols : Nat
  uniqueCols : List Nat
  notNullCols : List Nat
  deriving DecidableEq

/-- `dim_breed(breed_name, species, group_name, purpose, source)`,
`UNIQUE (breed_name, species)`, `breed_name`/`species` NOT NULL. -/
def breedSchema : DimSchema := ⟨5, [0, 1], [0, 1]⟩

/-- `dim_geo(state, country)`, `UNIQUE (state, country)`, both nullable. -/
def geoSchema : DimSchema := ⟨2, [0, 1], []⟩

/-- `dim_reaction(reaction_name)`, NOT NULL UNIQUE. -/
def reactionSchema : DimSchema := ⟨1, [0], [0]⟩

/-- `dim_outcome(outcome_name)`, NOT NULL UNIQUE. -/
def outcomeSchema : DimSchema := ⟨1, [0], [0]⟩

/-- `dim_active_ingredient(ingredient_name)`, NOT NULL UNIQUE. -/
def ingredientSchema : DimSchema := ⟨1, [0], [0]⟩

/-- The dimension tables created by `init_warehouse` (lines 17-47). -/
def warehouseDimSchemas : List DimSchema :=
  [breedSchema, geoSchema, reactionSchema, outcomeSchema, ingredientSchema]

structure DimTable where
  rows : List (Nat × List PyVal)
  nextKey : Nat
  deriving DecidableEq

def emptyDim : DimTable := ⟨[], 1⟩

/-- The lookup `_get_or_create_dim` issues: all `unique_cols` compared,
`IS NULL` for `None` values and `=` otherwise — i.e. exact row equality in
the `PyVal` model. -/
def dimFind (t : DimTable) (vals : List PyVal) : Option (Nat × List PyVal) :=
  t.rows.find? (fun r => r.2 = vals)

/-- Would `INSERT OR IGNORE` of `vals` violate the UNIQUE constraint?
SQLite compares UNIQUE columns NULL-distinct: a conflict needs every
constraint column pairwise non-NULL equal. -/
def uniqueConflict (s : DimSchema) (t : DimTable) (vals : List PyVal) : Bool :=
  t.rows.any (fun r => s.uniqueCols.all (fun i => nonNullEq (getAt r.2 i) (getAt vals i)))

/-- Would the insert violate a NOT NULL constraint (also ignored under
`INSERT OR IGNORE`)? -/
def notNullViol (s : DimSchema) (vals : List PyVal) : Bool :=
  s.notNullCols.any (fun i => decide (getAt vals i = PyVal.none))

/-- `_get_or_create_dim(conn, table, key_col, unique_cols)` (lines 92-121).
Returns `(returned key, table after, last_insert_rowid after)`:

* select by all `unique_cols`; if a row is found return its key;
* otherwise `INSERT OR IGNORE`; if the insert was suppressed
  (`cursor.rowcount == 0`) re-run the *same* select, and if it still finds
  nothing fall through to `int(cursor.lastrowid)` — which, after a
  suppressed insert, is the connection-level rowid of the last
  *successful* insert, i.e. the incoming `lastRowid`;
* a successful insert returns the fresh AUTOINCREMENT key. -/
def getOrCreateDim (s : DimSchema) (t : DimTable) (lastRowid : Nat)
    (vals : List PyVal) : Nat × DimTable × Nat :=
  match dimFind t vals with
  | some r => (r.1, t, lastRowid)
  | Option.none =>
    if uniqueConflict s t vals || notNullViol s vals then
      match dimFind t vals with
      | some r => (r.1, t, lastRowid)
      | Option.none => (lastRowid, t, lastRowid)
    else
      (t.nextKey, ⟨t.rows ++ [(t.nextKey, vals)], t.nextKey + 1⟩, t.nextKey)

/-- The non-key columns of one `fact_event` row. -/
structure FactData where
  reportId : PyVal
  breedKey : Option Nat
  geoKey : Option Nat
  species : PyVal
  sex : PyVal
  reproductiveStatus : PyVal
  weightKg : Option ℚ
  ageMin : Option ℚ
  daysToReaction : Option ℤ
  eventDate : PyVal
  deriving DecidableEq

structure FactTable where
  rows : List (Nat × FactData)
  nextKey : Nat
  deriving DecidableEq

/-- The fact insert of `load_events_from_staging` (lines 323-352):
`INSERT OR IGNORE` keyed by `UNIQUE report_id`; if suppressed, select the
existing row's `event_key`; if that also finds nothing the source soft-skips
the record (`continue`), reported here as result key `Option.none`. -/
def insertFact (f : FactTable) (lastRowid : Nat) (d : FactData) :
    Option Nat × FactTable × Nat :=
  if f.rows.any (fun r => nonNullEq r.2.reportId d.reportId) then
    match f.rows.find? (fun r => nonNullEq r.2.reportId d.reportId) with
    | some r => (some r.1, f, lastRowid)
    | Option.none => (Option.none, f, lastRowid)
  else
    (some f.nextKey, ⟨f.rows ++ [(f.nextKey, d)], f.nextKey + 1⟩, f.nextKey)

structure BridgeTable where
  pairs : List (Nat × Nat)
  deriving DecidableEq

/-- `INSERT OR IGNORE` into a bridge table with composite primary key
`(event_key, dim_key)`: inserting an existing pair is a no-op; a successful
insert bumps the connection's last rowid to the new row's rowid. -/
def bridgeInsert (b : BridgeTable) (lastRowid : Nat) (p : Nat × Nat) :
    BridgeTable × Nat :=
  if p ∈ b.pairs then (b, lastRowid)
  else (⟨b.pairs ++ [p]⟩, b.pairs.length + 1)

structure Warehouse where
  breed : DimTable
  geo : DimTable
  reaction : DimTable
  outcome : DimTable
  ingredient : DimTable
  fact : FactTable
  bridgeReaction : BridgeTable
  bridgeOutcome : BridgeTable
  bridgeIngredient : BridgeTable
  deriving DecidableEq

def emptyWarehouse : Warehouse :=
  ⟨emptyDim, emptyDim, emptyDim, emptyDim, emptyDim, ⟨[], 1⟩, ⟨[]⟩, ⟨[]⟩, ⟨[]⟩⟩

/-- A SQLite connection to the warehouse: the shared database state plus
the connection-level `last_insert_rowid` (0 on a fresh connection). -/
structure Conn where
  wh : Warehouse
  lastRowid : Nat
  deriving DecidableEq

/-- One turn of the reaction loop (lines 354-364): get-or-create the
`dim_reaction` row, then `INSERT OR IGNORE` the bridge pair. -/
def linkReaction (c : Conn) (ek : Nat) (nm : String) : Conn :=
  let r := getOrCreateDim reactionSchema c.wh.reaction c.lastRowid [.str nm]
  let b := bridgeInsert c.wh.bridgeReaction r.2.2 (ek, r.1)
  ⟨{ c.wh with reaction := r.2.1, bridgeReaction := b.1 }, b.2⟩

/-- One turn of the outcome loop (lines 366-376). -/
def linkOutcome (c : Conn) (ek : Nat) (nm : String) : Conn :=
  let r := getOrCreateDim outcomeSchema c.wh.outcome c.lastRowid [.str nm]
  let b := bridgeInsert c.wh.bridgeOutcome r.2.2 (ek, r.1)
  ⟨{ c.wh with outcome := r.2.1, bridgeOutcome := b.1 }, b.2⟩

/-- One turn of the ingredient loop (lines 378-388). -/
def linkIngredient (c : Conn) (ek : Nat) (nm : String) : Conn :=
  let r := getOrCreateDim ingredientSchema c.wh.ingredient c.lastRowid [.str nm]
  let b := bridgeInsert c.wh.bridgeIngredient r.2.2 (ek, r.1)
  ⟨{ c.wh with ingredient := r.2.1, bridgeIngredient := b.1 }, b.2⟩

/-- Lines 308-321: `breed_key` is resolved only when both the extracted
breed name and the species are truthy; `species.lower()` raises
`AttributeError` on a truthy non-string species. -/
def resolveBreedKey (c : Conn) (breedName : Option String) (species : PyVal) :
    Except String (Option Nat × Conn) :=
  match breedName with
  | some bn =>
    if truthy species then
      match lowerOrErr species with
      | .error e => .error e
      | .ok sl =>
        let r := getOrCreateDim breedSchema c.wh.breed c.lastRowid
          [.str bn, .str sl, PyVal.none, PyVal.none, .str "openfda"]
        .ok (some r.1, ⟨{ c.wh with breed := r.2.1 }, r.2.2⟩)
    else .ok (Option.none, c)
  | Option.none => .ok (Option.none, c)

/-- The fact-row column values the loader binds (lines 323-342). -/
def factDataOf (fs afs : List (String × PyVal)) (bk gk : Option Nat)
    (days : Option ℤ) : FactData :=
  ⟨pyOr (pyGet fs "unique_number") (pyGet fs "report_id"), bk, gk,
   pyGet afs "species", pyGet afs "gender", pyGet afs "reproductive_status",
   normalizeWeight (pyGet afs "weight") (pyGet afs "weight_unit"),
   normalizeAge (pyGet afs "age") (pyGet afs "age_unit"), days,
   pyGet fs "original_receive_date"⟩

/-- Lines 301-306: get-or-create the `dim_geo` row for the payload's
`(state, country)` — unconditionally, even when both are `NULL`. -/
def geoStage (c : Conn) (fs : List (String × PyVal)) : Nat × Conn :=
  let g := getOrCreateDim geoSchema c.wh.geo c.lastRowid
    [pyGet fs "state", pyGet fs "country"]
  (g.1, ⟨{ c.wh with geo := g.2.1 }, g.2.2⟩)

/-- Lines 323-352: insert-or-resolve the fact row (key result
`Option.none` is the soft-skip `continue`). -/
def factStage (c : Conn) (d : FactData) : Option Nat × Conn :=
  let f := insertFact c.wh.fact c.lastRowid d
  (f.1, ⟨{ c.wh with fact := f.2.1 }, f.2.2⟩)

/-- Lines 354-388: link all extracted reactions, outcomes and active
ingredients of the record to the resolved event key (the extractors may
raise `TypeError` on truthy non-iterable fields). -/
def linkStage (c : Conn) (fs : List (String × PyVal)) (ek : Nat) :
    Except String Conn :=
  match extractReactions fs with
  | .error e => .error e
  | .ok rnames =>
    let c4 := rnames.foldl (fun cc nm => linkReaction cc ek nm) c
    match extractOutcomes fs with
    | .error e => .error e
    | .ok onames =>
      let c5 := onames.foldl (fun cc nm => linkOutcome cc ek nm) c4
      match extractActiveIngredients fs with
      | .error e => .error e
      | .ok inames => .ok (inames.foldl (fun cc nm => linkIngredient cc ek nm) c5)

/-- The per-record body of `load_events_from_staging` (lines 286-388) for an
already-parsed JSON object `fs`:

1. `report_id = payload.get("unique_number") or payload.get("report_id")`;
   a falsy report id skips the record (`continue`);
2. `animal = payload.get("animal", {}) or {}` — a truthy non-dict animal
   raises `AttributeError` at the first `.get` on it;
3. compute days-to-reaction (may raise; the weight/age normalizations are
   total and sit inside `factDataOf`);
4. the geo stage, the breed-key resolution (may raise on
   `species.lower()`), the fact stage, and the link stage. -/
def processParsed (c : Conn) (fs : List (String × PyVal)) : Except String Conn :=
  if truthy (pyOr (pyGet fs "unique_number") (pyGet fs "report_id")) = false then .ok c
  else
    match pyOr (pyGetD fs "animal" (.dict [])) (.dict []) with
    | .dict afs =>
      match normalizeDaysToReaction (.dict fs) with
      | .error e => .error e
      | .ok days =>
        let gs := geoStage c fs
        match resolveBreedKey gs.2 (extractBreedName afs) (pyGet afs "species") with
        | .error e => .error e
        | .ok bc =>
          let fsg := factStage bc.2 (factDataOf fs afs bc.1 (some gs.1) days)
          match fsg.1 with
          | Option.none => .ok fsg.2
          | some ek => linkStage fsg.2 fs ek
    | _ => .error "AttributeError"

/-- One staged record: `Option.none` models a payload row on which
`json.loads` raises (`json.JSONDecodeError`, uncaught in the source);
`some v` is the parsed JSON value.  A parsed value that is not an object
raises `AttributeError` at `payload.get`. -/
def processRecord (c : Conn) (r : Option PyVal) : Except String Conn :=
  match r with
  | Option.none => .error "JSONDecodeError"
  | some (.dict fs) => processParsed c fs
  | some _ => .error "AttributeError"

/-- `load_events_from_staging` over a staged dataset: a fresh connection
(`last_insert_rowid = 0`) processes the staged rows in order; an uncaught
exception aborts the run and rolls the transaction back (no resulting
state), a clean run commits the final warehouse. -/
def loadEvents (ds : List (Option PyVal)) (w : Warehouse) : Except String Warehouse :=
  match ds.foldlM processRecord ⟨w, 0⟩ with
  | .error e => .error e
  | .ok c => .ok c.wh

/-- A sequence of bare `_get_or_create_dim` calls against one dimension
table (the upsert engine of spec §4.4), used for the dimension-uniqueness
claims; the threaded `last_insert_rowid` never influences table contents. -/
def runCalls (s : DimSchema) (t : DimTable) (cs : List (List PyVal)) : DimTable :=
  cs.foldl (fun tt v => (getOrCreateDim s tt 0 v).2.1) t

/-- Does row `xs` agree with tuple `K` on the columns `ci`
(`NULL` matching `NULL`, values matching by equality)? -/
def projMatch (ci : List Nat) (xs K : List PyVal) : Bool :=
  ci.all (fun i => decide (getAt xs i = getAt K i))

/-- Number of rows of `t` whose `ci` columns equal those of `K`. -/
def cntProj (ci : List Nat) (t : DimTable) (K : List PyVal) : Nat :=
  t.rows.countP (fun r => projMatch ci r.2 K)

/-! ### Breed matcher (src/main_pipeline.py, `smart_breed_match`,
`enrich_data`)

`smart_breed_match` delegates its fuzzy step to the standard library's
`difflib.get_close_matches(fda_breed, api_breed_list, n=1, cutoff=0.6)`.
difflib is modelled here at the level of its defining algorithm:

* `SequenceMatcher.ratio()` is `2*M/T` where `T` is the total length of the
  two strings and `M` the number of characters matched by recursively
  taking the longest matching block (of the maximal blocks, the one
  starting earliest in the first sequence, then earliest in the second);
  the junk/autojunk machinery is omitted — it is inert for sequences
  shorter than 200 characters;
* `get_close_matches` keeps the candidates whose ratio reaches the cutoff
  (its `real_quick_ratio`/`quick_ratio` pre-filters are upper bounds of
  `ratio` and never change the accepted set) and picks the best via
  `heapq.nlargest(1, ...)` over `(score, candidate)` pairs — so a score
  tie is broken toward the lexicographically *greatest* candidate. -/

/-- Length of the common prefix of two character lists. -/
def lcpLen : List Char → List Char → Nat
  | x :: xs, y :: ys => if x = y then lcpLen xs ys + 1 else 0
  | _, _ => 0

/-- Length of the matching run starting at `(i, j)` inside the windows
`[·, ahi)` / `[·, bhi)`. -/
def runLen (a b : List Char) (ahi bhi i j : Nat) : Nat :=
  lcpLen ((a.take ahi).drop i) ((b.take bhi).drop j)

/-- `SequenceMatcher.find_longest_match` on the window
`[alo, ahi) × [blo, bhi)` (no junk): the longest matching block, ties going
to the smallest `i`, then the smallest `j`; `(alo, blo, 0)` if none. -/
def findLongestMatch (a b : List Char) (alo ahi blo bhi : Nat) : Nat × Nat × Nat :=
  (List.range' alo (ahi - alo)).foldl (fun best i =>
    (List.range' blo (bhi - blo)).foldl (fun best2 j =>
      let k := runLen a b ahi bhi i j
      if k > best2.2.2 then (i, j, k) else best2) best) (alo, blo, 0)

/-- `SequenceMatcher.get_matching_blocks` restricted to a window, by
recursion on both sides of each longest block (fuelled; the initial fuel
`|a| + |b| + 1` dominates the window sizes). -/
def matchBlocks (a b : List Char) : Nat → Nat → Nat → Nat → Nat → List (Nat × Nat × Nat)
  | 0, _, _, _, _ => []
  | fuel + 1, alo, ahi, blo, bhi =>
    let t := findLongestMatch a b alo ahi blo bhi
    if t.2.2 = 0 then []
    else
      matchBlocks a b fuel alo t.1 blo t.2.1 ++ [t] ++
        matchBlocks a b fuel (t.1 + t.2.2) ahi (t.2.1 + t.2.2) bhi

/-- Total number of characters matched between `x` and `w` (the sum of the
matching-block sizes). -/
def matchTotal (x w : String) : Nat :=
  ((matchBlocks x.toList w.toList (x.toList.length + w.toList.length + 1) 0
    x.toList.length 0 w.toList.length).map (fun t => t.2.2)).sum

/-- `len(x) + len(w)`, the denominator of the ratio. -/
def simTotalLen (x w : String) : Nat := x.toList.length + w.toList.length

/-- `SequenceMatcher(None, x, w).ratio()` as an exact rational:
`2*M/T` over the matched totals (1 when both strings are empty). -/
def simScore (x w : String) : ℚ :=
  if simTotalLen x w = 0 then 1
  else (2 * (matchTotal x w : ℚ)) / (simTotalLen x w : ℚ)

/-- The accepting step of `get_close_matches`: keep a candidate if its score
reaches the cutoff. -/
def acceptScore (word : String) (cutoff : ℚ) (acc : List (ℚ × String)) (x : String) :
    List (ℚ × String) :=
  if cutoff ≤ simScore x word then acc ++ [(simScore x word, x)] else acc

/-- One comparison step of `heapq.nlargest(1)` over `(score, candidate)`
pairs: Python tuple comparison, so a score tie compares the strings. -/
def pickBetter (best : Option (ℚ × String)) (p : ℚ × String) : Option (ℚ × String) :=
  match best with
  | Option.none => some p
  | some bp => if bp.1 < p.1 ∨ (bp.1 = p.1 ∧ strLt bp.2 p.2) then some p else best

/-- `difflib.get_close_matches(word, possibilities, n=1, cutoff)`: collect
the candidates whose score reaches the cutoff, then `nlargest(1)` over the
`(score, candidate)` pairs (lexicographic on the pair, as Python tuple
comparison does). -/
def getCloseMatches1 (word : String) (possibilities : List String) (cutoff : ℚ) :
    Option String :=
  ((possibilities.foldl (acceptScore word cutoff) []).foldl pickBetter
    Option.none).map (fun p => p.2)

/-- `smart_breed_match(fda_breed, api_breed_list)` (lines 205-222),
parameterized by the fuzzy fallback so that "no fuzzy step involved" is
expressible: a non-string input returns `None`; a string containing a
hyphen that splits into exactly two parts first tries the reversed
concatenation `"parts[1] parts[0]"` against the reference list. -/
def smartBreedMatchGen (fuzzy : String → List String → Option String)
    (fdaBreed : PyVal) (apiBreedList : List String) : Option String :=
  match fdaBreed with
  | .str s =>
    if '-' ∈ s.toList then
      let parts := (strSplitChar '-' s).map (fun p => strTrim p)
      if parts.length = 2 then
        let swapped := parts.getD 1 "" ++ " " ++ parts.getD 0 ""
        if swapped ∈ apiBreedList then some swapped
        else fuzzy s apiBreedList
      else fuzzy s apiBreedList
    else fuzzy s apiBreedList
  | _ => Option.none

/-- The fuzzy step actually used: `difflib.get_close_matches(..., n=1,
cutoff=0.6)`, returning the single best match if any. -/
def difflibClose (s : String) (refs : List String) : Option String :=
  getCloseMatches1 s refs (3 / 5)

/-- `smart_breed_match` as called by the pipeline. -/
def smartBreedMatch (v : PyVal) (refs : List String) : Option String :=
  smartBreedMatchGen difflibClose v refs

/-- `enrich_data`'s resolution (line 245):
`breed_map[breed] = match if match else "Unknown"` — a `None` (or falsy,
i.e. empty-string) match resolves to `"Unknown"`. -/
def resolveBreed (v : PyVal) (refs : List String) : String :=
  match smartBreedMatch v refs with
  | some m => if m = "" then "Unknown" else m
  | Option.none => "Unknown"

/-- Did the swap heuristic hit (hyphen present, exactly two parts, reversed
concatenation in the reference list)? -/
def swapHit (s : String) (refs : List String) : Bool :=
  decide ('-' ∈ s.toList) &&
    (let parts := (strSplitChar '-' s).map (fun p => strTrim p)
     decide (parts.length = 2) &&
       decide ((parts.getD 1 "" ++ " " ++ parts.getD 0 "") ∈ refs))

/-! ### Auxiliary predicates and concrete fixtures used by the statements -/

/-- Build a payload whose timing object carries the given value and unit. -/
def mkTiming (v u : PyVal) : PyVal :=
  .dict [(timingKey, .dict [("time_value", v), ("time_unit", u)])]

/-- The timing field's `time_unit` is falsy or a string (the inputs on which
`_normalize_days_to_reaction`'s `.lower()` cannot raise). -/
def timingUnitSafe (fs : List (String × PyVal)) : Prop :=
  match pyGet fs timingKey with
  | .dict ts => truthy (pyGet ts "time_unit") = false ∨ ∃ s, pyGet ts "time_unit" = .str s
  | _ => True

/-- Every row of the dimension table has the given column count (true of
every state SQLite can hold for these tables, where the column set is fixed
by the DDL). -/
def dimRowsWF (n : Nat) (t : DimTable) : Prop :=
  ∀ r ∈ t.rows, r.2.length = n

/-- Row shape well-formedness of the five dimension tables. -/
def warehouseWF (w : Warehouse) : Prop :=
  dimRowsWF 5 w.breed ∧ dimRowsWF 2 w.geo ∧ dimRowsWF 1 w.reaction ∧
    dimRowsWF 1 w.outcome ∧ dimRowsWF 1 w.ingredient

/-- `l'` extends `l` at the end (how all table writes grow row lists). -/
def listExt {α : Type} (l l' : List α) : Prop := ∃ m, l' = l ++ m

def dimExt (t t' : DimTable) : Prop := listExt t.rows t'.rows

/-- The warehouse grows only by appending rows. -/
def whExt (w w' : Warehouse) : Prop :=
  dimExt w.breed w'.breed ∧ dimExt w.geo w'.geo ∧ dimExt w.reaction w'.reaction ∧
    dimExt w.outcome w'.outcome ∧ dimExt w.ingredient w'.ingredient ∧
    listExt w.fact.rows w'.fact.rows ∧
    listExt w.bridgeReaction.pairs w'.bridgeReaction.pairs ∧
    listExt w.bridgeOutcome.pairs w'.bridgeOutcome.pairs ∧
    listExt w.bridgeIngredient.pairs w'.bridgeIngredient.pairs

/-- A staged record is settled in warehouse `w`: re-processing it on any
connection over `w` succeeds and changes nothing. -/
def settled (r : Option PyVal) (w : Warehouse) : Prop :=
  ∀ lr, processRecord ⟨w, lr⟩ r = .ok ⟨w, lr⟩

/-- Number of rows of a dimension table whose full column tuple is `vals`. -/
def cntDimRows (t : DimTable) (vals : List PyVal) : Nat :=
  t.rows.countP (fun r => decide (r.2 = vals))

/-- Everything a staged record needs is already present in warehouse `w`:
its report id is falsy (the record is skipped), or the record parses
cleanly, its geography row exists, its breed call either hits or still
conflicts, its fact row is found by report id, and every extracted
reaction/outcome/ingredient name has its dimension row and bridge pair in
place.  Re-processing such a record is a no-op (see
`processParsed_of_recordFits`), and a successful first pass establishes the
predicate (see `processParsed_establishes`). -/
def recordFits (fs : List (String × PyVal)) (w : Warehouse) : Prop :=
  truthy (pyOr (pyGet fs "unique_number") (pyGet fs "report_id")) = false ∨
  (∃ afs, pyOr (pyGetD fs "animal" (.dict [])) (.dict []) = .dict afs ∧
    (∃ days, normalizeDaysToReaction (.dict fs) = .ok days) ∧
    (dimFind w.geo [pyGet fs "state", pyGet fs "country"]).isSome ∧
    (∀ bn, extractBreedName afs = some bn → truthy (pyGet afs "species") = true →
      ∃ sl, lowerOrErr (pyGet afs "species") = .ok sl ∧
        ((dimFind w.breed [.str bn, .str sl, PyVal.none, PyVal.none, .str "openfda"]).isSome ∨
          uniqueConflict breedSchema w.breed
            [.str bn, .str sl, PyVal.none, PyVal.none, .str "openfda"] = true)) ∧
    (∃ fr, w.fact.rows.find? (fun r => nonNullEq r.2.reportId
        (pyOr (pyGet fs "unique_number") (pyGet fs "report_id"))) = some fr ∧
      (∃ rnames, extractReactions fs = .ok rnames ∧ ∀ nm ∈ rnames,
        ∃ k, dimFind w.reaction [.str nm] = some (k, [.str nm]) ∧
          (fr.1, k) ∈ w.bridgeReaction.pairs) ∧
      (∃ onames, extractOutcomes fs = .ok onames ∧ ∀ nm ∈ onames,
        ∃ k, dimFind w.outcome [.str nm] = some (k, [.str nm]) ∧
          (fr.1, k) ∈ w.bridgeOutcome.pairs) ∧
      (∃ inames, extractActiveIngredients fs = .ok inames ∧ ∀ nm ∈ inames,
        ∃ k, dimFind w.ingredient [.str nm] = some (k, [.str nm]) ∧
          (fr.1, k) ∈ w.bridgeIngredient.pairs)))

/-- A natural-key tuple the table can actually hold: either the schema's
NOT NULL columns are among the UNIQUE columns and `K` is non-NULL on all
UNIQUE columns, or the call tuple is exactly the UNIQUE constraint and
nothing is NOT NULL (the `dim_geo` layout, where `K` may contain NULLs). -/
def saneKey (s : DimSchema) (K : List PyVal) : Prop :=
  ((∀ i ∈ s.notNullCols, i ∈ s.uniqueCols) ∧ ∀ i ∈ s.uniqueCols, getAt K i ≠ PyVal.none)
  ∨ (s.uniqueCols = List.range s.ncols ∧ s.notNullCols = [])

/-- A staged payload with only a report id (no animal, no location). -/
def exR1 : PyVal := .dict [("report_id", .str "R1")]

/-- The warehouse produced by loading `exR1` into an empty warehouse: one
shared `(NULL, NULL)` geography row and one fact row with a geography key
but no breed key. -/
def exW1 : Warehouse :=
  ⟨emptyDim, ⟨[(1, [PyVal.none, PyVal.none])], 2⟩, emptyDim, emptyDim, emptyDim,
   ⟨[(1, ⟨.str "R1", Option.none, some 1, PyVal.none, PyVal.none, PyVal.none,
      Option.none, Option.none, Option.none, PyVal.none⟩)], 2⟩, ⟨[]⟩, ⟨[]⟩, ⟨[]⟩⟩

/-- A staged payload in the shape of spec §8's end-to-end scenario, with the
reaction name duplicated inside the record. -/
def exR2 : PyVal := .dict [
  ("unique_number", .str "R1"),
  ("animal", .dict [("species", .str "Dog"), ("breed", .str "Labrador")]),
  ("reaction", .list [.dict [("veddra_term_name", .str "Vomiting")],
    .dict [("veddra_term_name", .str "Vomiting")]]),
  ("outcome", .list [.dict [("medical_status", .str "Recovered")]]),
  ("drug", .list [.dict [("active_ingredients", .list [.dict [("name", .str "Ibuprofen")]])]]),
  ("state", .str "CA"), ("country", .str "US")]

/-- The warehouse produced by loading `exR2` into an empty warehouse: each
bridge holds exactly one pair even though "Vomiting" occurs twice. -/
def exW2 : Warehouse :=
  ⟨⟨[(1, [.str "Labrador", .str "dog", PyVal.none, PyVal.none, .str "openfda"])], 2⟩,
   ⟨[(1, [.str "CA", .str "US"])], 2⟩,
   ⟨[(1, [.str "Vomiting"])], 2⟩,
   ⟨[(1, [.str "Recovered"])], 2⟩,
   ⟨[(1, [.str "Ibuprofen"])], 2⟩,
   ⟨[(1, ⟨.str "R1", some 1, some 1, .str "Dog", PyVal.none, PyVal.none,
      Option.none, Option.none, Option.none, PyVal.none⟩)], 2⟩,
   ⟨[(1, 1)]⟩, ⟨[(1, 1)]⟩, ⟨[(1, 1)]⟩⟩

/-- A `dim_breed` table as left by the breed-reference load
(`load_breeds_from_staging`): the Labrador row carries `group_name`,
`purpose` and `source = "thedogapi"`. -/
def breedRefTable : DimTable :=
  ⟨[(1, [.str "Labrador", .str "dog", .str "Sporting", .str "Retrieving", .str "thedogapi"])], 2⟩

/-- The event-side `_get_or_create_dim` call tuple for the same breed:
same natural key `("Labrador", "dog")`, different non-key columns. -/
def breedEventCall : List PyVal :=
  [.str "Labrador", .str "dog", PyVal.none, PyVal.none, .str "openfda"]

/-- `recordFits` lifted to a staged row: a raw row is settled only if it
parses to a dict whose record fits the warehouse. -/
def recFits (r : Option PyVal) (w : Warehouse) : Prop :=
  match r with
  | some (.dict fs) => recordFits fs w
  | _ => False

/-- Inserting one bridge pair over and over, one `INSERT OR IGNORE` per
element of `lrs` (the threaded rowids are irrelevant to the table). -/
def insertSamePair (b : BridgeTable) (p : Nat × Nat) (lrs : List Nat) : BridgeTable :=
  lrs.foldl (fun bb lr => (bridgeInsert bb lr p).1) b

/-! ### Shared lemmas about list search and the upsert primitives -/

theorem find?_append_of_some {α : Type} (p : α → Bool) (l l2 : List α) (x : α)
    (h : l.find? p = some x) : (l ++ l2).find? p = some x := by
  induction l with
  | nil => simp at h
  | cons a as ih =>
    cases hpa : p a <;> simp only [List.cons_append, List.find?_cons, hpa] at h ⊢
    · exact ih h
    · exact h

theorem find?_append_of_none {α : Type} (p : α → Bool) (l l2 : List α)
    (h : l.find? p = Option.none) : (l ++ l2).find? p = l2.find? p := by
  induction l with
  | nil => simp
  | cons a as ih =>
    cases hpa : p a <;> simp only [List.cons_append, List.find?_cons, hpa] at h ⊢
    · exact ih h
    · exact absurd h (by simp)

theorem listExt_refl {α : Type} (l : List α) : listExt l l := ⟨[], by simp⟩

theorem listExt_trans {α : Type} {a b c : List α} (h1 : listExt a b)
    (h2 : listExt b c) : listExt a c := by
  obtain ⟨m1, rfl⟩ := h1
  obtain ⟨m2, rfl⟩ := h2
  exact ⟨m1 ++ m2, by simp⟩

theorem listExt_append {α : Type} (l m : List α) : listExt l (l ++ m) := ⟨m, rfl⟩

theorem find?_of_listExt {α : Type} (p : α → Bool) {l l' : List α} (x : α)
    (hext : listExt l l') (h : l.find? p = some x) : l'.find? p = some x := by
  obtain ⟨m, rfl⟩ := hext
  exact find?_append_of_some p l m x h

theorem mem_of_listExt {α : Type} {l l' : List α} {x : α}
    (hext : listExt l l') (h : x ∈ l) : x ∈ l' := by
  obtain ⟨m, rfl⟩ := hext
  exact List.mem_append_left m h

/-! Case lemmas for `getOrCreateDim`. -/

theorem gocd_found {s : DimSchema} {t : DimTable} {lr : Nat} {vals : List PyVal}
    {r : Nat × List PyVal} (h : dimFind t vals = some r) :
    getOrCreateDim s t lr vals = (r.1, t, lr) := by
  simp only [getOrCreateDim, h]

theorem gocd_miss_ignore {s : DimSchema} {t : DimTable} {lr : Nat} {vals : List PyVal}
    (h : dimFind t vals = Option.none)
    (hc : (uniqueConflict s t vals || notNullViol s vals) = true) :
    getOrCreateDim s t lr vals = (lr, t, lr) := by
  simp only [getOrCreateDim, h, hc, if_true]

theorem gocd_miss_insert {s : DimSchema} {t : DimTable} {lr : Nat} {vals : List PyVal}
    (h : dimFind t vals = Option.none)
    (hc : (uniqueConflict s t vals || notNullViol s vals) = false) :
    getOrCreateDim s t lr vals =
      (t.nextKey, ⟨t.rows ++ [(t.nextKey, vals)], t.nextKey + 1⟩, t.nextKey) := by
  simp only [getOrCreateDim, h, hc, Bool.false_eq_true, if_false]

theorem gocd_table_cases (s : DimSchema) (t : DimTable) (lr : Nat) (vals : List PyVal) :
    (getOrCreateDim s t lr vals).2.1 = t ∨
      (getOrCreateDim s t lr vals).2.1 = ⟨t.rows ++ [(t.nextKey, vals)], t.nextKey + 1⟩ := by
  cases h : dimFind t vals with
  | some r => left; rw [gocd_found h]
  | none =>
    cases hc : (uniqueConflict s t vals || notNullViol s vals) with
    | true => left; rw [gocd_miss_ignore h hc]
    | false => right; rw [gocd_miss_insert h hc]

theorem gocd_ext (s : DimSchema) (t : DimTable) (lr : Nat) (vals : List PyVal) :
    dimExt t (getOrCreateDim s t lr vals).2.1 := by
  rcases gocd_table_cases s t lr vals with h | h <;> rw [h]
  · exact listExt_refl _
  · exact listExt_append _ _

theorem dimFind_some {t : DimTable} {vals : List PyVal} {r : Nat × List PyVal}
    (h : dimFind t vals = some r) : r ∈ t.rows ∧ r.2 = vals := by
  refine ⟨List.mem_of_find?_eq_some h, ?_⟩
  have := List.find?_some h
  simpa using this

theorem dimFind_none {t : DimTable} {vals : List PyVal}
    (h : dimFind t vals = Option.none) : ∀ r ∈ t.rows, r.2 ≠ vals := by
  intro r hr
  have := List.find?_eq_none.mp h r hr
  simpa using this

/-- Rebuild a list of known length 2 from its `getAt` entries. -/
theorem eq_of_getAt_two {xs ys : List PyVal} (hx : xs.length = 2) (hy : ys.length = 2)
    (h0 : getAt xs 0 = getAt ys 0) (h1 : getAt xs 1 = getAt ys 1) : xs = ys := by
  match xs, hx, ys, hy with
  | [a, b], _, [c, d], _ =>
    simp only [getAt, List.getD] at h0 h1
    simp_all

/-- Rebuild a list of known length 1 from its `getAt` entry. -/
theorem eq_of_getAt_one {xs ys : List PyVal} (hx : xs.length = 1) (hy : ys.length = 1)
    (h0 : getAt xs 0 = getAt ys 0) : xs = ys := by
  match xs, hx, ys, hy with
  | [a], _, [c], _ =>
    simp only [getAt, List.getD] at h0
    simp_all

theorem nonNullEq_eq {a b : PyVal} (h : nonNullEq a b = true) :
    a = b ∧ b ≠ PyVal.none := by
  simp only [nonNullEq, Bool.and_eq_true, decide_eq_true_eq] at h
  exact ⟨h.2, h.1.2⟩

/-- On a single-column NOT-NULL-UNIQUE dimension (reaction/outcome/ingredient
layout) with well-shaped rows, a get-or-create for a string name either hits
the stored row or inserts a fresh one, and afterwards the lookup finds the
returned key. -/
theorem gocd_single_resolves (s : DimSchema) (hu : s.uniqueCols = [0])
    (hn : s.notNullCols = [0]) (t : DimTable) (hwf : dimRowsWF 1 t) (lr : Nat)
    (nm : String) :
    dimFind (getOrCreateDim s t lr [.str nm]).2.1 [.str nm] =
        some ((getOrCreateDim s t lr [.str nm]).1, [.str nm]) ∧
      dimRowsWF 1 (getOrCreateDim s t lr [.str nm]).2.1 ∧
      ((getOrCreateDim s t lr [.str nm]).2.1 = t ∧
          (getOrCreateDim s t lr [.str nm]).2.2 = lr ∨
        (getOrCreateDim s t lr [.str nm]).2.1 =
          ⟨t.rows ++ [(t.nextKey, [.str nm])], t.nextKey + 1⟩) := by
  cases h : dimFind t [.str nm] with
  | some r =>
    obtain ⟨hmem, hr2⟩ := dimFind_some h
    rw [gocd_found h]
    refine ⟨?_, hwf, Or.inl ⟨rfl, rfl⟩⟩
    rw [h]
    have : r = (r.1, r.2) := rfl
    rw [this, hr2]
  | none =>
    have hcf : uniqueConflict s t [.str nm] = false := by
      cases hc : uniqueConflict s t [.str nm] with
      | false => rfl
      | true =>
        exfalso
        simp only [uniqueConflict, List.any_eq_true] at hc
        obtain ⟨r, hr, hall⟩ := hc
        rw [hu] at hall
        simp only [List.all_cons, List.all_nil, Bool.and_true] at hall
        obtain ⟨heq, _⟩ := nonNullEq_eq hall
        have hlen := hwf r hr
        have : r.2 = [.str nm] := by
          apply eq_of_getAt_one hlen (by simp)
          simpa [getAt] using heq
        exact dimFind_none h r hr this
    have hnv : notNullViol s [.str nm] = false := by
      simp [notNullViol, hn, getAt]
    rw [gocd_miss_insert h (by rw [hcf, hnv]; rfl)]
    refine ⟨?_, ?_, Or.inr rfl⟩
    · show List.find? _ (t.rows ++ [(t.nextKey, [PyVal.str nm])]) = _
      rw [find?_append_of_none _ _ _ h]
      simp [dimFind]
    · intro r hr
      simp only [List.mem_append, List.mem_singleton] at hr
      rcases hr with hr | hr
      · exact hwf r hr
      · rw [hr]; rfl

/-- Same resolution fact for the `dim_geo` layout: both columns nullable, the
UNIQUE constraint is the whole lookup tuple, so an ignored insert is
impossible. -/
theorem gocd_geo_resolves (t : DimTable) (hwf : dimRowsWF 2 t) (lr : Nat)
    (v : List PyVal) (hv : v.length = 2) :
    dimFind (getOrCreateDim geoSchema t lr v).2.1 v =
        some ((getOrCreateDim geoSchema t lr v).1, v) ∧
      dimRowsWF 2 (getOrCreateDim geoSchema t lr v).2.1 ∧
      ((getOrCreateDim geoSchema t lr v).2.1 = t ∧
          (getOrCreateDim geoSchema t lr v).2.2 = lr ∨
        (getOrCreateDim geoSchema t lr v).2.1 =
          ⟨t.rows ++ [(t.nextKey, v)], t.nextKey + 1⟩) := by
  cases h : dimFind t v with
  | some r =>
    obtain ⟨hmem, hr2⟩ := dimFind_some h
    rw [gocd_found h]
    refine ⟨?_, hwf, Or.inl ⟨rfl, rfl⟩⟩
    rw [h]
    have : r = (r.1, r.2) := rfl
    rw [this, hr2]
  | none =>
    have hcf : uniqueConflict geoSchema t v = false := by
      rcases Bool.eq_false_or_eq_true (uniqueConflict geoSchema t v) with hc | hc
      · exfalso
        simp only [uniqueConflict, List.any_eq_true] at hc
        obtain ⟨r, hr, hall⟩ := hc
        simp only [geoSchema, List.all_cons, List.all_nil, Bool.and_true,
          Bool.and_eq_true] at hall
        obtain ⟨h0, h1⟩ := hall
        obtain ⟨he0, _⟩ := nonNullEq_eq h0
        obtain ⟨he1, _⟩ := nonNullEq_eq h1
        have hlen := hwf r hr
        exact dimFind_none h r hr (eq_of_getAt_two hlen hv he0 he1)
      · exact hc
    have hnv : notNullViol geoSchema v = false := by
      simp [notNullViol, geoSchema]
    rw [gocd_miss_insert h (by rw [hcf, hnv]; rfl)]
    refine ⟨?_, ?_, Or.inr rfl⟩
    · show List.find? _ (t.rows ++ [(t.nextKey, v)]) = _
      rw [find?_append_of_none _ _ _ h]
      simp [dimFind]
    · intro r hr
      simp only [List.mem_append, List.mem_singleton] at hr
      rcases hr with hr | hr
      · exact hwf r hr
      · rw [hr]; exact hv

/-- The three possible outcomes of the event-side `dim_breed` call. -/
theorem gocd_breed_cases (t : DimTable) (lr : Nat) (bn sl : String) :
    (∃ r, dimFind t [.str bn, .str sl, PyVal.none, PyVal.none, .str "openfda"] = some r ∧
        getOrCreateDim breedSchema t lr
          [.str bn, .str sl, PyVal.none, PyVal.none, .str "openfda"] = (r.1, t, lr)) ∨
    (dimFind t [.str bn, .str sl, PyVal.none, PyVal.none, .str "openfda"] = Option.none ∧
      uniqueConflict breedSchema t
        [.str bn, .str sl, PyVal.none, PyVal.none, .str "openfda"] = true ∧
      getOrCreateDim breedSchema t lr
        [.str bn, .str sl, PyVal.none, PyVal.none, .str "openfda"] = (lr, t, lr)) ∨
    (dimFind t [.str bn, .str sl, PyVal.none, PyVal.none, .str "openfda"] = Option.none ∧
      uniqueConflict breedSchema t
        [.str bn, .str sl, PyVal.none, PyVal.none, .str "openfda"] = false ∧
      getOrCreateDim breedSchema t lr
        [.str bn, .str sl, PyVal.none, PyVal.none, .str "openfda"] =
        (t.nextKey, ⟨t.rows ++
          [(t.nextKey, [.str bn, .str sl, PyVal.none, PyVal.none, .str "openfda"])],
          t.nextKey + 1⟩, t.nextKey)) := by
  cases h : dimFind t [.str bn, .str sl, PyVal.none, PyVal.none, .str "openfda"] with
  | some r => exact Or.inl ⟨r, rfl, gocd_found h⟩
  | none =>
    have hnv : notNullViol breedSchema
        [.str bn, .str sl, PyVal.none, PyVal.none, .str "openfda"] = false := by
      simp [notNullViol, breedSchema, getAt]
    cases hc : uniqueConflict breedSchema t
        [.str bn, .str sl, PyVal.none, PyVal.none, .str "openfda"] with
    | true =>
      exact Or.inr (Or.inl ⟨rfl, rfl, gocd_miss_ignore h (by rw [hc, hnv]; rfl)⟩)
    | false =>
      exact Or.inr (Or.inr ⟨rfl, rfl, gocd_miss_insert h (by rw [hc, hnv]; rfl)⟩)

/-- A UNIQUE conflict persists when the table only grows. -/
theorem uniqueConflict_of_dimExt {s : DimSchema} {t t' : DimTable} {v : List PyVal}
    (h : uniqueConflict s t v = true) (hext : dimExt t t') :
    uniqueConflict s t' v = true := by
  simp only [uniqueConflict, List.any_eq_true] at h ⊢
  obtain ⟨r, hr, hall⟩ := h
  exact ⟨r, mem_of_listExt hext hr, hall⟩

/-! Case lemmas for `insertFact` and `bridgeInsert`. -/

theorem insertFact_conflict {f : FactTable} {lr : Nat} {d : FactData}
    {r : Nat × FactData}
    (hc : f.rows.any (fun r => nonNullEq r.2.reportId d.reportId) = true)
    (hf : f.rows.find? (fun r => nonNullEq r.2.reportId d.reportId) = some r) :
    insertFact f lr d = (some r.1, f, lr) := by
  simp only [insertFact, hc, if_true, hf]

theorem insertFact_fresh {f : FactTable} {lr : Nat} {d : FactData}
    (hc : f.rows.any (fun r => nonNullEq r.2.reportId d.reportId) = false) :
    insertFact f lr d =
      (some f.nextKey, ⟨f.rows ++ [(f.nextKey, d)], f.nextKey + 1⟩, f.nextKey) := by
  simp only [insertFact, hc, Bool.false_eq_true, if_false]

theorem any_find?_some {α : Type} {p : α → Bool} {l : List α}
    (h : l.any p = true) : ∃ x, l.find? p = some x := by
  have : (l.find? p).isSome := by
    rw [List.find?_isSome]
    simpa [List.any_eq_true] using h
  cases hf : l.find? p with
  | some x => exact ⟨x, rfl⟩
  | none => rw [hf] at this; simp at this

theorem bridgeInsert_mem {b : BridgeTable} {lr : Nat} {p : Nat × Nat}
    (h : p ∈ b.pairs) : bridgeInsert b lr p = (b, lr) := by
  simp only [bridgeInsert, h, if_true]

theorem bridgeInsert_not_mem {b : BridgeTable} {lr : Nat} {p : Nat × Nat}
    (h : p ∉ b.pairs) :
    bridgeInsert b lr p = (⟨b.pairs ++ [p]⟩, b.pairs.length + 1) := by
  simp only [bridgeInsert, h, if_false]

theorem bridgeInsert_pairs_mem (b : BridgeTable) (lr : Nat) (p : Nat × Nat) :
    p ∈ (bridgeInsert b lr p).1.pairs := by
  by_cases h : p ∈ b.pairs
  · rw [bridgeInsert_mem h]; exact h
  · rw [bridgeInsert_not_mem h]; simp

theorem bridgeInsert_ext (b : BridgeTable) (lr : Nat) (p : Nat × Nat) :
    listExt b.pairs (bridgeInsert b lr p).1.pairs := by
  by_cases h : p ∈ b.pairs
  · rw [bridgeInsert_mem h]; exact listExt_refl _
  · rw [bridgeInsert_not_mem h]; exact listExt_append _ _

/-! ### Unit-normalizer lemmas (claims C5/C6) -/

theorem normalizeWeight_pounds (q : ℚ) (u : String) (hu : strLower u ∈ poundUnits) :
    normalizeWeight (.num q) (.str u) = some (q * (45359237 / 100000000)) := by
  have hne : u ≠ "" := by
    intro h
    subst h
    revert hu
    decide
  simp [normalizeWeight, pyFloat, truthy, hne, pyStr, hu]

theorem normalizeWeight_no_unit (q : ℚ) :
    normalizeWeight (.num q) PyVal.none = some q := by
  simp [normalizeWeight, pyFloat, truthy]

theorem normalizeWeight_other_unit (q : ℚ) (u : String)
    (hu : strLower u ∉ poundUnits) :
    normalizeWeight (.num q) (.str u) = some q := by
  by_cases hne : u = ""
  · simp [normalizeWeight, pyFloat, truthy, hne]
  · simp [normalizeWeight, pyFloat, truthy, hne, pyStr, hu]

theorem normalizeAge_years (q : ℚ) (u : String)
    (hu : strLower u ∈ (["year", "years"] : List String)) :
    normalizeAge (.num q) (.str u) = some (q * 12) := by
  have hne : u ≠ "" := by
    intro h
    subst h
    revert hu
    decide
  simp only [List.mem_cons, List.not_mem_nil, or_false] at hu
  rcases hu with h | h <;> simp [normalizeAge, pyFloat, truthy, hne, pyStr, h]

theorem normalizeAge_days (q : ℚ) (u : String)
    (hu : strLower u ∈ (["day", "days"] : List String)) :
    normalizeAge (.num q) (.str u) = some (q / 30) := by
  have hne : u ≠ "" := by
    intro h
    subst h
    revert hu
    decide
  simp only [List.mem_cons, List.not_mem_nil, or_false] at hu
  rcases hu with h | h <;> simp [normalizeAge, pyFloat, truthy, hne, pyStr, h]

theorem normDTR_shape (q : ℚ) (uv : PyVal) :
    normalizeDaysToReaction (mkTiming (.num q) uv) =
      match lowerOrErr (pyOr uv (.str "")) with
      | .error e => .error e
      | .ok unit =>
        if unit ∈ (["day", "days"] : List String) then .ok (some (pyRound q))
        else if unit ∈ (["week", "weeks"] : List String) then .ok (some (pyRound (q * 7)))
        else if unit ∈ (["month", "months"] : List String) then .ok (some (pyRound (q * 30)))
        else .ok Option.none := by
  simp only [normalizeDaysToReaction, mkTiming, pyGet, timingKey]
  simp [pyFloat]

theorem normDTR_str_unit (q : ℚ) (u : String) :
    normalizeDaysToReaction (mkTiming (.num q) (.str u)) =
      (if strLower u ∈ (["day", "days"] : List String) then .ok (some (pyRound q))
       else if strLower u ∈ (["week", "weeks"] : List String) then
         .ok (some (pyRound (q * 7)))
       else if strLower u ∈ (["month", "months"] : List String) then
         .ok (some (pyRound (q * 30)))
       else .ok Option.none) := by
  rw [normDTR_shape]
  have : pyOr (.str u) (.str "") = .str u := by
    by_cases hne : u = "" <;> simp [pyOr, truthy, hne]
  rw [this]
  rfl

/-- Membership in one concrete list excludes membership in a disjoint one. -/
theorem mem_ne_sets {u : String} {l1 l2 : List String} (hu : u ∈ l1)
    (hdisj : ∀ a ∈ l1, a ∉ l2) : u ∉ l2 :=
  fun h => hdisj u hu h

/-- C5: the unit normalizers convert as specified — a weight with a
pounds-family unit is multiplied by 0.45359237 (10 lbs ↦ 4.5359237 kg),
an unrecognized or missing weight unit passes the value through; an age in
years is multiplied by 12 (2 years ↦ 24 months) and in days divided by 30;
a `{time_value, time_unit}` duration maps days to `round(v)`, weeks to
`round(v*7)` (1 week ↦ 7 days) and months to `round(v*30)`, while any other
or missing unit yields unknown (`none`). -/
theorem unit_conversions_correct :
    (∀ (q : ℚ) (u : String), strLower u ∈ poundUnits →
        normalizeWeight (.num q) (.str u) = some (q * (45359237 / 100000000))) ∧
    normalizeWeight (.num 10) (.str "lbs") = some (45359237 / 10000000) ∧
    (∀ q : ℚ, normalizeWeight (.num q) PyVal.none = some q) ∧
    (∀ (q : ℚ) (u : String), strLower u ∉ poundUnits →
        normalizeWeight (.num q) (.str u) = some q) ∧
    (∀ (q : ℚ) (u : String), strLower u ∈ (["year", "years"] : List String) →
        normalizeAge (.num q) (.str u) = some (q * 12)) ∧
    normalizeAge (.num 2) (.str "years") = some 24 ∧
    (∀ (q : ℚ) (u : String), strLower u ∈ (["day", "days"] : List String) →
        normalizeAge (.num q) (.str u) = some (q / 30)) ∧
    (∀ (q : ℚ) (u : String), strLower u ∈ (["day", "days"] : List String) →
        normalizeDaysToReaction (mkTiming (.num q) (.str u)) = .ok (some (pyRound q))) ∧
    (∀ (q : ℚ) (u : String), strLower u ∈ (["week", "weeks"] : List String) →
        normalizeDaysToReaction (mkTiming (.num q) (.str u)) =
          .ok (some (pyRound (q * 7)))) ∧
    (∀ (q : ℚ) (u : String), strLower u ∈ (["month", "months"] : List String) →
        normalizeDaysToReaction (mkTiming (.num q) (.str u)) =
          .ok (some (pyRound (q * 30)))) ∧
    normalizeDaysToReaction (mkTiming (.num 1) (.str "weeks")) = .ok (some 7) ∧
    (∀ (q : ℚ) (u : String),
        strLower u ∉ (["day", "days", "week", "weeks", "month", "months"] : List String) →
        normalizeDaysToReaction (mkTiming (.num q) (.str u)) = .ok Option.none) ∧
    (∀ q : ℚ, normalizeDaysToReaction (mkTiming (.num q) PyVal.none) = .ok Option.none) := by
  refine ⟨normalizeWeight_pounds, ?_, normalizeWeight_no_unit, normalizeWeight_other_unit,
    normalizeAge_years, ?_, normalizeAge_days, ?_, ?_, ?_, ?_, ?_, ?_⟩
  · rw [normalizeWeight_pounds 10 "lbs" (by decide)]
    norm_num
  · rw [normalizeAge_years 2 "years" (by decide)]
    norm_num
  · intro q u hu
    rw [normDTR_str_unit, if_pos hu]
  · intro q u hu
    rw [normDTR_str_unit, if_neg (mem_ne_sets hu (by decide)), if_pos hu]
  · intro q u hu
    rw [normDTR_str_unit, if_neg (mem_ne_sets hu (by decide)),
      if_neg (mem_ne_sets hu (by decide)), if_pos hu]
  · rw [normDTR_str_unit]
    have h7 : pyRound ((1 : ℚ) * 7) = 7 := by
      norm_num [pyRound]
    simp only [h7]
    decide
  · intro q u hu
    simp only [List.mem_cons, List.not_mem_nil, or_false, not_or] at hu
    rw [normDTR_str_unit]
    simp [hu.1, hu.2.1, hu.2.2.1, hu.2.2.2.1, hu.2.2.2.2.1, hu.2.2.2.2.2]
  · intro q
    rw [normDTR_shape]
    rfl

/-- Witness for `unit_conversions_correct`: the theorem applied at the
spec's concrete checkpoints. -/
theorem unit_conversions_correct_witness :
    normalizeWeight (.num 10) (.str "lbs") = some (45359237 / 10000000) ∧
    normalizeWeight (.num 3) (.str "stone") = some 3 ∧
    normalizeAge (.num 2) (.str "years") = some 24 ∧
    normalizeDaysToReaction (mkTiming (.num 1) (.str "weeks")) = .ok (some 7) ∧
    normalizeDaysToReaction (mkTiming (.num 2) (.str "hours")) = .ok Option.none :=
  ⟨unit_conversions_correct.2.1,
   unit_conversions_correct.2.2.2.1 3 "stone" (by decide),
   unit_conversions_correct.2.2.2.2.2.1,
   unit_conversions_correct.2.2.2.2.2.2.2.2.2.2.1,
   unit_conversions_correct.2.2.2.2.2.2.2.2.2.2.2.1 2 "hours" (by decide)⟩

theorem lowerOrErr_error {v : PyVal} {e : String} (h : lowerOrErr v = .error e) :
    e = "AttributeError" := by
  cases v <;> simp [lowerOrErr] at h <;> exact h.symm

/-- If the timing unit expression evaluates to a string, the duration
normalizer returns a value (no exception). -/
theorem normDTR_ok_of_str {fs : List (String × PyVal)} {ts : List (String × PyVal)}
    (hpg : pyGet fs timingKey = .dict ts) (s : String)
    (hu : pyOr (pyGet ts "time_unit") (.str "") = .str s) :
    ∃ r, normalizeDaysToReaction (.dict fs) = .ok r := by
  simp only [normalizeDaysToReaction, hpg, hu, lowerOrErr]
  cases pyFloat (pyGet ts "time_value") with
  | none => exact ⟨Option.none, rfl⟩
  | some q =>
    by_cases h1 : strLower s ∈ (["day", "days"] : List String)
    · exact ⟨some (pyRound q), by simp [h1]⟩
    · by_cases h2 : strLower s ∈ (["week", "weeks"] : List String)
      · exact ⟨some (pyRound (q * 7)), by simp [h1, h2]⟩
      · by_cases h3 : strLower s ∈ (["month", "months"] : List String)
        · exact ⟨some (pyRound (q * 30)), by simp [h1, h2, h3]⟩
        · exact ⟨Option.none, by simp [h1, h2, h3]⟩

/-- C6 counterexample: on a well-formed timing object whose `time_unit` is
the number 5 (a truthy non-string), the duration normalizer does not return
a value — `(timing.get("time_unit") or "").lower()` raises
`AttributeError`, so the claim "never raises" is false as stated. -/
theorem duration_normalizer_raises :
    normalizeDaysToReaction (mkTiming (.num 1) (.num 5)) = .error "AttributeError" := by
  decide

/-- C6 (amended): the weight and age normalizers return a canonical number
or unknown (`none`) on every input — null, empty string, non-numeric
string, object with missing keys — and never raise; the duration
normalizer likewise returns `.ok` or, exactly when its argument is not a
dict or the timing `time_unit` is truthy and not a string, raises
`AttributeError`. -/
theorem normalizers_fail_gracefully :
    (∀ u : PyVal, normalizeWeight PyVal.none u = Option.none) ∧
    (∀ u : PyVal, normalizeWeight (.str "") u = Option.none) ∧
    (∀ (u : PyVal) (s : String), parseFloat s = Option.none →
        normalizeWeight (.str s) u = Option.none) ∧
    (∀ u : PyVal, normalizeWeight (.dict []) u = Option.none) ∧
    (∀ u : PyVal, normalizeAge PyVal.none u = Option.none) ∧
    (∀ u : PyVal, normalizeAge (.str "") u = Option.none) ∧
    (∀ (u : PyVal) (s : String), parseFloat s = Option.none →
        normalizeAge (.str s) u = Option.none) ∧
    (∀ u : PyVal, normalizeAge (.dict []) u = Option.none) ∧
    (∀ e : PyVal, (∃ r, normalizeDaysToReaction e = .ok r) ∨
        normalizeDaysToReaction e = .error "AttributeError") ∧
    (∀ fs : List (String × PyVal), timingUnitSafe fs →
        ∃ r, normalizeDaysToReaction (.dict fs) = .ok r) := by
  refine ⟨?_, ?_, ?_, ?_, ?_, ?_, ?_, ?_, ?_, ?_⟩
  · intro u; simp [normalizeWeight]
  · intro u; simp [normalizeWeight]
  · intro u s hs
    by_cases h : s = ""
    · subst h; simp [normalizeWeight]
    · simp [normalizeWeight, h, pyFloat, hs]
  · intro u; simp [normalizeWeight, pyGet, pyOr, truthy, pyFloat]
  · intro u; simp [normalizeAge]
  · intro u; simp [normalizeAge]
  · intro u s hs
    by_cases h : s = ""
    · subst h; simp [normalizeAge]
    · simp [normalizeAge, h, pyFloat, hs]
  · intro u; simp [normalizeAge, pyGet, pyOr, truthy, pyFloat]
  · intro e
    match e with
    | PyVal.none | .bool _ | .num _ | .str _ | .list _ => right; rfl
    | .dict fs =>
      cases hpg : pyGet fs timingKey with
      | dict ts =>
        cases hlow : lowerOrErr (pyOr (pyGet ts "time_unit") (.str "")) with
        | error e' =>
          right
          have he := lowerOrErr_error hlow
          subst he
          simp [normalizeDaysToReaction, hpg, hlow]
        | ok unit =>
          left
          cases hv : pyOr (pyGet ts "time_unit") (.str "") with
          | str s => exact normDTR_ok_of_str hpg s hv
          | none => rw [hv] at hlow; simp [lowerOrErr] at hlow
          | bool b => rw [hv] at hlow; simp [lowerOrErr] at hlow
          | num q => rw [hv] at hlow; simp [lowerOrErr] at hlow
          | list xs => rw [hv] at hlow; simp [lowerOrErr] at hlow
          | dict ds => rw [hv] at hlow; simp [lowerOrErr] at hlow
      | none => exact Or.inl ⟨Option.none, by simp [normalizeDaysToReaction, hpg]⟩
      | bool b => exact Or.inl ⟨Option.none, by simp [normalizeDaysToReaction, hpg]⟩
      | num q => exact Or.inl ⟨Option.none, by simp [normalizeDaysToReaction, hpg]⟩
      | str s => exact Or.inl ⟨Option.none, by simp [normalizeDaysToReaction, hpg]⟩
      | list xs => exact Or.inl ⟨Option.none, by simp [normalizeDaysToReaction, hpg]⟩
  · intro fs hs
    cases hpg : pyGet fs timingKey with
    | dict ts =>
      unfold timingUnitSafe at hs
      rw [hpg] at hs
      rcases hs with hfal | ⟨s, hstr⟩
      · exact normDTR_ok_of_str hpg "" (by simp [pyOr, hfal])
      · by_cases ht : truthy (.str s) = true
        · exact normDTR_ok_of_str hpg s (by simp [pyOr, hstr, ht])
        · have hs0 : s = "" := by
            simpa [truthy] using ht
          exact normDTR_ok_of_str hpg "" (by simp [pyOr, hstr, hs0, truthy])
    | none => exact ⟨Option.none, by simp [normalizeDaysToReaction, hpg]⟩
    | bool b => exact ⟨Option.none, by simp [normalizeDaysToReaction, hpg]⟩
    | num q => exact ⟨Option.none, by simp [normalizeDaysToReaction, hpg]⟩
    | str s => exact ⟨Option.none, by simp [normalizeDaysToReaction, hpg]⟩
    | list xs => exact ⟨Option.none, by simp [normalizeDaysToReaction, hpg]⟩

/-- Witness for `normalizers_fail_gracefully` at concrete inputs. -/
theorem normalizers_fail_gracefully_witness :
    normalizeWeight (.str "abc") PyVal.none = Option.none ∧
    ∃ r, normalizeDaysToReaction
      (.dict [(timingKey, .dict [("time_value", .num 1), ("time_unit", .str "days")])]) =
      .ok r :=
  ⟨normalizers_fail_gracefully.2.2.1 PyVal.none "abc" (by decide),
   normalizers_fail_gracefully.2.2.2.2.2.2.2.2.2 _ (Or.inr ⟨"days", by decide⟩)⟩

/-! ### Breed matcher lemmas (claims C8/C9) -/

/-- C8: for every breed string with a hyphen splitting into exactly two
parts whose reversed concatenation is in the reference list, the matcher
returns that reversed concatenation regardless of the fuzzy fallback (so no
fuzzy step is involved); in particular "Retriever - Labrador" against a
reference list containing "Labrador Retriever" matches it exactly. -/
theorem swap_heuristic_before_fuzzy :
    (∀ (fuzzy : String → List String → Option String) (s : String) (refs : List String),
        '-' ∈ s.toList →
        ((strSplitChar '-' s).map (fun p => strTrim p)).length = 2 →
        ((strSplitChar '-' s).map (fun p => strTrim p)).getD 1 "" ++ " " ++
            ((strSplitChar '-' s).map (fun p => strTrim p)).getD 0 "" ∈ refs →
        smartBreedMatchGen fuzzy (.str s) refs =
          some (((strSplitChar '-' s).map (fun p => strTrim p)).getD 1 "" ++ " " ++
            ((strSplitChar '-' s).map (fun p => strTrim p)).getD 0 "")) ∧
    smartBreedMatch (.str "Retriever - Labrador") ["Labrador Retriever"] =
      some "Labrador Retriever" := by
  constructor
  · intro fuzzy s refs hdash hlen hmem
    simp only [smartBreedMatchGen]
    rw [if_pos hdash, if_pos hlen, if_pos hmem]
  · decide

/-- Witness for `swap_heuristic_before_fuzzy`: the general part applied to a
fuzzy fallback that never matches anything still returns the swap. -/
theorem swap_heuristic_before_fuzzy_witness :
    smartBreedMatchGen (fun _ _ => Option.none) (.str "Retriever - Labrador")
      ["Labrador Retriever"] = some "Labrador Retriever" :=
  (swap_heuristic_before_fuzzy.1 (fun _ _ => Option.none) "Retriever - Labrador"
    ["Labrador Retriever"] (by decide) (by decide) (by decide)).trans (by decide)

/-- When the swap heuristic does not hit, `smart_breed_match` is exactly its
fuzzy fallback. -/
theorem smartBreedMatch_no_swap {s : String} {refs : List String}
    (h : swapHit s refs = false) (fuzzy : String → List String → Option String) :
    smartBreedMatchGen fuzzy (.str s) refs = fuzzy s refs := by
  simp only [swapHit, Bool.and_eq_false_iff, decide_eq_false_iff_not] at h
  simp only [smartBreedMatchGen]
  by_cases h1 : '-' ∈ s.toList
  · rw [if_pos h1]
    by_cases h2 : ((strSplitChar '-' s).map (fun p => strTrim p)).length = 2
    · rw [if_pos h2]
      rcases h with h | h
      · exact absurd h1 h
      rcases h with h | h
      · exact absurd h2 h
      · rw [if_neg h]
    · rw [if_neg h2]
  · rw [if_neg h1]

/-- The accepting fold of `get_close_matches` is accumulator plus a
filter-map of the possibilities. -/
theorem scored_fold_eq (s : String) (cutoff : ℚ) :
    ∀ (refs : List String) (acc : List (ℚ × String)),
      List.foldl (acceptScore s cutoff) acc refs =
      acc ++ refs.filterMap (fun x =>
        if cutoff ≤ simScore x s then some (simScore x s, x) else Option.none) := by
  intro refs
  induction refs with
  | nil => intro acc; simp
  | cons x xs ih =>
    intro acc
    simp only [List.foldl_cons, List.filterMap_cons, acceptScore]
    by_cases hx : cutoff ≤ simScore x s
    · rw [if_pos hx, if_pos hx, ih]
      simp
    · rw [if_neg hx, if_neg hx, ih]

/-- The best-pick fold returns either the seed or a list element. -/
theorem pick_best_mem :
    ∀ (l : List (ℚ × String)) (acc : Option (ℚ × String)) (v : ℚ × String),
      List.foldl pickBetter acc l = some v → acc = some v ∨ v ∈ l := by
  intro l
  induction l with
  | nil => intro acc v h; simp at h; exact Or.inl h
  | cons p ps ih =>
    intro acc v h
    simp only [List.foldl_cons] at h
    have step : pickBetter acc p = some p ∨ pickBetter acc p = acc := by
      cases acc with
      | none => exact Or.inl rfl
      | some bp =>
        simp only [pickBetter]
        by_cases hc : bp.1 < p.1 ∨ (bp.1 = p.1 ∧ strLt bp.2 p.2)
        · rw [if_pos hc]; exact Or.inl rfl
        · rw [if_neg hc]; exact Or.inr rfl
    rcases step with hstep | hstep
    · rw [hstep] at h
      rcases ih (some p) v h with h2 | h2
      · right
        simp only [Option.some.injEq] at h2
        simp [h2]
      · right; exact List.mem_cons_of_mem p h2
    · rw [hstep] at h
      rcases ih acc v h with h2 | h2
      · exact Or.inl h2
      · right; exact List.mem_cons_of_mem p h2

/-- The best-pick fold over a list whose elements all equal `v` returns
`some v` (given a compatible seed). -/
theorem pick_best_all_eq (v : ℚ × String) :
    ∀ (l : List (ℚ × String)) (acc : Option (ℚ × String)),
      (∀ p ∈ l, p = v) → (acc = Option.none ∧ l ≠ [] ∨ acc = some v) →
      List.foldl pickBetter acc l = some v := by
  intro l
  induction l with
  | nil =>
    intro acc _ hacc
    rcases hacc with ⟨_, hne⟩ | hacc
    · exact absurd rfl hne
    · simp [hacc]
  | cons p ps ih =>
    intro acc hall hacc
    have hp : p = v := hall p (List.mem_cons_self p ps)
    have hall2 : ∀ q ∈ ps, q = v := fun q hq => hall q (List.mem_cons_of_mem p hq)
    simp only [List.foldl_cons]
    have hstep : pickBetter acc p = some v := by
      cases acc with
      | none => rw [hp]; rfl
      | some bp =>
        rcases hacc with ⟨habs, _⟩ | hacc
        · exact absurd habs (by simp)
        · simp only [Option.some.injEq] at hacc
          subst hacc
          subst hp
          simp only [pickBetter]
          split <;> rfl
    rw [hstep]
    exact ih (some v) hall2 (Or.inr rfl)

/-- C9 counterexample: "abd" and "abe" both score 2/3 ≥ 0.6 against "abc",
yet the matcher returns "abe" — `heapq.nlargest` over `(score, candidate)`
tuples breaks the tie toward the lexicographically greatest candidate, not
the first-best match found. -/
theorem fuzzy_tie_not_first_best :
    simScore "abd" "abc" = simScore "abe" "abc" ∧
    (3 : ℚ) / 5 ≤ simScore "abd" "abc" ∧
    swapHit "abc" ["abd", "abe"] = false ∧
    smartBreedMatch (.str "abc") ["abd", "abe"] = some "abe" := by
  have hm1 : matchTotal "abd" "abc" = 2 := by decide
  have hm2 : matchTotal "abe" "abc" = 2 := by decide
  have ht1 : simTotalLen "abd" "abc" = 6 := by decide
  have ht2 : simTotalLen "abe" "abc" = 6 := by decide
  have hs1 : simScore "abd" "abc" = 2 / 3 := by
    simp only [simScore, hm1, ht1]
    norm_num
  have hs2 : simScore "abe" "abc" = 2 / 3 := by
    simp only [simScore, hm2, ht2]
    norm_num
  have hns : swapHit "abc" ["abd", "abe"] = false := by decide
  refine ⟨hs1.trans hs2.symm, by rw [hs1]; norm_num, hns, ?_⟩
  show smartBreedMatchGen difflibClose (.str "abc") ["abd", "abe"] = some "abe"
  rw [smartBreedMatch_no_swap hns]
  simp only [difflibClose, getCloseMatches1]
  rw [scored_fold_eq]
  simp only [List.filterMap_cons, List.filterMap_nil]
  rw [if_pos (by rw [hs1]; norm_num), if_pos (by rw [hs2]; norm_num)]
  simp only [List.nil_append, List.foldl_cons, List.foldl_nil]
  show ((pickBetter (pickBetter Option.none (simScore "abd" "abc", "abd"))
    (simScore "abe" "abc", "abe")).map (fun p => p.2)) = some "abe"
  simp only [pickBetter]
  rw [hs1, hs2]
  rw [if_pos (Or.inr ⟨rfl, by decide⟩)]
  rfl

/-- C9 (amended): with no swap match, a string whose similarity to every
reference entry is below 0.6 resolves to "Unknown"; a string with
similarity at least 0.6 to exactly one entry resolves to that entry; and
the matcher accepts only entries whose similarity reaches 0.6 (ties among
equal scores go to the lexicographically greatest entry, not the first
found). -/
theorem fuzzy_threshold_resolution :
    (∀ (s : String) (refs : List String), swapHit s refs = false →
        (∀ x ∈ refs, simScore x s < 3 / 5) →
        resolveBreed (.str s) refs = "Unknown") ∧
    (∀ (s : String) (refs : List String) (e : String), swapHit s refs = false →
        e ∈ refs → 3 / 5 ≤ simScore e s →
        (∀ x ∈ refs, x ≠ e → simScore x s < 3 / 5) →
        smartBreedMatch (.str s) refs = some e) ∧
    (∀ (s : String) (refs : List String) (e : String), swapHit s refs = false →
        smartBreedMatch (.str s) refs = some e →
        e ∈ refs ∧ 3 / 5 ≤ simScore e s) := by
  refine ⟨?_, ?_, ?_⟩
  · intro s refs hns hall
    have hnone : smartBreedMatch (.str s) refs = Option.none := by
      show smartBreedMatchGen difflibClose (.str s) refs = _
      rw [smartBreedMatch_no_swap hns]
      simp only [difflibClose, getCloseMatches1]
      rw [scored_fold_eq]
      have hfm : refs.filterMap (fun x =>
          if (3 : ℚ) / 5 ≤ simScore x s then some (simScore x s, x) else Option.none) = [] := by
        rw [List.filterMap_eq_nil_iff]
        intro x hx
        rw [if_neg (not_le.mpr (hall x hx))]
      rw [hfm]
      rfl
    simp [resolveBreed, hnone]
  · intro s refs e hns he hge huniq
    show smartBreedMatchGen difflibClose (.str s) refs = some e
    rw [smartBreedMatch_no_swap hns]
    simp only [difflibClose, getCloseMatches1]
    rw [scored_fold_eq]
    simp only [List.nil_append]
    have hall : ∀ p ∈ refs.filterMap (fun x =>
        if (3 : ℚ) / 5 ≤ simScore x s then some (simScore x s, x) else Option.none),
        p = (simScore e s, e) := by
      intro p hp
      rw [List.mem_filterMap] at hp
      obtain ⟨x, hx, hfx⟩ := hp
      by_cases hxe : x = e
      · subst hxe
        rw [if_pos hge] at hfx
        exact (Option.some.inj hfx).symm
      · rw [if_neg (not_le.mpr (huniq x hx hxe))] at hfx
        exact absurd hfx (by simp)
    have hne : refs.filterMap (fun x =>
        if (3 : ℚ) / 5 ≤ simScore x s then some (simScore x s, x) else Option.none) ≠ [] := by
      have hmem : (simScore e s, e) ∈ refs.filterMap (fun x =>
          if (3 : ℚ) / 5 ≤ simScore x s then some (simScore x s, x) else Option.none) :=
        List.mem_filterMap.mpr ⟨e, he, by rw [if_pos hge]⟩
      intro h0
      rw [h0] at hmem
      simp at hmem
    rw [pick_best_all_eq (simScore e s, e) _ Option.none hall (Or.inl ⟨rfl, hne⟩)]
    rfl
  · intro s refs e hns hsome
    have hsome2 : smartBreedMatchGen difflibClose (.str s) refs = some e := hsome
    rw [smartBreedMatch_no_swap hns] at hsome2
    simp only [difflibClose, getCloseMatches1] at hsome2
    rw [scored_fold_eq] at hsome2
    simp only [List.nil_append] at hsome2
    rw [Option.map_eq_some'] at hsome2
    obtain ⟨v, hv, hv2⟩ := hsome2
    rcases pick_best_mem _ _ _ hv with habs | hmem
    · exact absurd habs (by simp)
    · rw [List.mem_filterMap] at hmem
      obtain ⟨x, hx, hfx⟩ := hmem
      by_cases hcond : (3 : ℚ) / 5 ≤ simScore x s
      · rw [if_pos hcond] at hfx
        have hvx : v = (simScore x s, x) := (Option.some.inj hfx).symm
        have hxe : x = e := by rw [hvx] at hv2; exact hv2
        subst hxe
        exact ⟨hx, hcond⟩
      · rw [if_neg hcond] at hfx
        exact absurd hfx (by simp)

/-- Witness for `fuzzy_threshold_resolution` at concrete inputs: "zzz" has
similarity 0 to "Labrador" and resolves to "Unknown"; "labrador" matches
itself with similarity 1. -/
theorem fuzzy_threshold_resolution_witness :
    resolveBreed (.str "zzz") ["Labrador"] = "Unknown" ∧
    smartBreedMatch (.str "labrador") ["labrador", "zzz"] = some "labrador" := by
  have hz : simScore "Labrador" "zzz" < 3 / 5 := by
    have hm : matchTotal "Labrador" "zzz" = 0 := by decide
    have ht : simTotalLen "Labrador" "zzz" = 11 := by decide
    simp only [simScore, hm, ht]
    norm_num
  have hl : (3 : ℚ) / 5 ≤ simScore "labrador" "labrador" := by
    have hm : matchTotal "labrador" "labrador" = 8 := by decide
    have ht : simTotalLen "labrador" "labrador" = 16 := by decide
    simp only [simScore, hm, ht]
    norm_num
  have hz2 : simScore "zzz" "labrador" < 3 / 5 := by
    have hm : matchTotal "zzz" "labrador" = 0 := by decide
    have ht : simTotalLen "zzz" "labrador" = 11 := by decide
    simp only [simScore, hm, ht]
    norm_num
  constructor
  · refine fuzzy_threshold_resolution.1 "zzz" ["Labrador"] (by decide) ?_
    intro x hx
    simp only [List.mem_singleton] at hx
    subst hx
    exact hz
  · refine fuzzy_threshold_resolution.2.1 "labrador" ["labrador", "zzz"] "labrador"
      (by decide) (by decide) hl ?_
    intro x hx hxe
    simp only [List.mem_cons, List.not_mem_nil, or_false] at hx
    rcases hx with hx | hx
    · exact absurd hx hxe
    · subst hx
      exact hz2

/-- C3: evidence of the divergence — with `dim_breed` holding the
reference-load Labrador row (surrogate key 1) and the connection's last
rowid at 5 from an unrelated earlier insert, the event-side call for the
same natural key `("Labrador", "dog")` misses its full-tuple lookup, has
its insert suppressed by `UNIQUE (breed_name, species)`, re-queries with
the same full tuple (again nothing), and returns `int(cursor.lastrowid)`
= 5 — a key that identifies no row at all, instead of the existing row's
key 1. -/
theorem breed_conflict_returns_stale_rowid :
    getOrCreateDim breedSchema breedRefTable 5 breedEventCall = (5, breedRefTable, 5) ∧
    (∀ r ∈ breedRefTable.rows, r.1 ≠ 5) ∧
    (∃ r ∈ breedRefTable.rows,
      getAt r.2 0 = .str "Labrador" ∧ getAt r.2 1 = .str "dog" ∧ r.1 = 1) ∧
    getAt breedEventCall 0 = .str "Labrador" ∧ getAt breedEventCall 1 = .str "dog" := by
  decide

/-! ### Dimension uniqueness (claim C2) -/

theorem eq_of_getAt_all {n : Nat} {xs ys : List PyVal} (hx : xs.length = n)
    (hy : ys.length = n) (h : ∀ i, i < n → getAt xs i = getAt ys i) : xs = ys := by
  apply List.ext_getElem (hx.trans hy.symm)
  intro i h1 h2
  have hi := h i (by omega)
  rw [getAt, getAt, List.getD_eq_getElem?_getD, List.getD_eq_getElem?_getD,
    List.getElem?_eq_getElem h1, List.getElem?_eq_getElem h2] at hi
  simpa using hi

theorem projMatch_all {ci : List Nat} {xs K : List PyVal}
    (h : projMatch ci xs K = true) : ∀ i ∈ ci, getAt xs i = getAt K i := by
  intro i hi
  have := (List.all_eq_true.mp h) i hi
  simpa using this

theorem projMatch_of_all {ci : List Nat} {xs K : List PyVal}
    (h : ∀ i ∈ ci, getAt xs i = getAt K i) : projMatch ci xs K = true := by
  rw [projMatch, List.all_eq_true]
  intro i hi
  simpa using h i hi

/-- One `_get_or_create_dim` call preserves row shape, keeps at most one
row with natural key `K`, never loses such rows, and a call carrying `K`
guarantees at least one such row afterwards. -/
theorem gocd_step_cnt (s : DimSchema) (K : List PyVal) (hK : K.length = s.ncols)
    (hsane : saneKey s K) (t : DimTable) (c : List PyVal) (hc : c.length = s.ncols)
    (hwf : dimRowsWF s.ncols t) (hle : cntProj s.uniqueCols t K ≤ 1) :
    dimRowsWF s.ncols (getOrCreateDim s t 0 c).2.1 ∧
    cntProj s.uniqueCols (getOrCreateDim s t 0 c).2.1 K ≤ 1 ∧
    cntProj s.uniqueCols t K ≤ cntProj s.uniqueCols (getOrCreateDim s t 0 c).2.1 K ∧
    (projMatch s.uniqueCols c K = true →
      1 ≤ cntProj s.uniqueCols (getOrCreateDim s t 0 c).2.1 K) := by
  cases hfind : dimFind t c with
  | some r =>
    obtain ⟨hmem, hr2⟩ := dimFind_some hfind
    rw [gocd_found hfind]
    refine ⟨hwf, hle, le_refl _, fun hm => ?_⟩
    have : 0 < cntProj s.uniqueCols t K := by
      rw [cntProj, List.countP_pos_iff]
      exact ⟨r, hmem, by rw [hr2]; exact hm⟩
    exact this
  | none =>
    have hviol : projMatch s.uniqueCols c K = true → notNullViol s c = false := by
      intro hm
      rcases Bool.eq_false_or_eq_true (notNullViol s c) with hv | hv
      · exfalso
        rw [notNullViol, List.any_eq_true] at hv
        obtain ⟨i, hinn, hnull⟩ := hv
        rw [decide_eq_true_eq] at hnull
        rcases hsane with ⟨hnnsub, hKnn⟩ | ⟨hci, hnn0⟩
        · have hici := hnnsub i hinn
          have := projMatch_all hm i hici
          rw [hnull] at this
          exact hKnn i hici this.symm
        · rw [hnn0] at hinn
          exact absurd hinn (List.not_mem_nil i)
      · exact hv
    cases hcf : (uniqueConflict s t c || notNullViol s c) with
    | true =>
      rw [gocd_miss_ignore hfind hcf]
      refine ⟨hwf, hle, le_refl _, fun hm => ?_⟩
      have hconf : uniqueConflict s t c = true := by
        rw [Bool.or_eq_true] at hcf
        rcases hcf with h | h
        · exact h
        · rw [hviol hm] at h
          exact absurd h (by simp)
      rw [uniqueConflict, List.any_eq_true] at hconf
      obtain ⟨r, hmem, hall⟩ := hconf
      have hrK : projMatch s.uniqueCols r.2 K = true := by
        apply projMatch_of_all
        intro i hi
        have h1 := (List.all_eq_true.mp hall) i hi
        obtain ⟨heq, _⟩ := nonNullEq_eq (by simpa using h1)
        rw [heq]
        exact projMatch_all hm i hi
      have : 0 < cntProj s.uniqueCols t K := by
        rw [cntProj, List.countP_pos_iff]
        exact ⟨r, hmem, hrK⟩
      exact this
    | false =>
      rw [gocd_miss_insert hfind hcf]
      have hcf2 : uniqueConflict s t c = false := by
        rcases Bool.eq_false_or_eq_true (uniqueConflict s t c) with h | h
        · rw [h] at hcf; simp at hcf
        · exact h
      have hwf2 : dimRowsWF s.ncols ⟨t.rows ++ [(t.nextKey, c)], t.nextKey + 1⟩ := by
        intro r hr
        rcases List.mem_append.mp hr with hr | hr
        · exact hwf r hr
        · rw [List.mem_singleton] at hr
          rw [hr]
          exact hc
      have hcnt : cntProj s.uniqueCols ⟨t.rows ++ [(t.nextKey, c)], t.nextKey + 1⟩ K =
          cntProj s.uniqueCols t K +
            (if projMatch s.uniqueCols c K = true then 1 else 0) := by
        simp only [cntProj, List.countP_append, List.countP_cons, List.countP_nil]
        split <;> simp
      by_cases hm : projMatch s.uniqueCols c K = true
      · have hzero : cntProj s.uniqueCols t K = 0 := by
          by_contra h0
          have hp : 0 < cntProj s.uniqueCols t K := Nat.pos_of_ne_zero h0
          rw [cntProj, List.countP_pos_iff] at hp
          obtain ⟨r, hmem, hrK⟩ := hp
          rcases hsane with ⟨hnnsub, hKnn⟩ | ⟨hci, hnn0⟩
          · have : uniqueConflict s t c = true := by
              rw [uniqueConflict, List.any_eq_true]
              refine ⟨r, hmem, List.all_eq_true.mpr fun i hi => ?_⟩
              have h1 := projMatch_all hrK i hi
              have h2 := projMatch_all hm i hi
              have hKn := hKnn i hi
              simp only [nonNullEq, h1, h2, Bool.and_eq_true, decide_eq_true_eq]
              exact ⟨⟨hKn, hKn⟩, trivial⟩
            rw [this] at hcf2
            exact absurd hcf2 (by simp)
          · have hr2 : r.2 = c := by
              apply eq_of_getAt_all (hwf r hmem) hc
              intro i hi
              have hici : i ∈ s.uniqueCols := by
                rw [hci]
                exact List.mem_range.mpr hi
              rw [projMatch_all hrK i hici, projMatch_all hm i hici]
            exact dimFind_none hfind r hmem hr2
        refine ⟨hwf2, ?_, ?_, fun _ => ?_⟩
        · rw [hcnt, hzero, if_pos hm]
        · rw [hcnt]; omega
        · rw [hcnt, if_pos hm]; omega
      · refine ⟨hwf2, ?_, ?_, fun hmm => absurd hmm hm⟩
        · rw [hcnt, if_neg hm]; simpa using hle
        · rw [hcnt]; omega

/-- Folding `_get_or_create_dim` calls preserves the invariants and
establishes existence for every natural key actually called. -/
theorem runCalls_cnt (s : DimSchema) (K : List PyVal) (hK : K.length = s.ncols)
    (hsane : saneKey s K) :
    ∀ (cs : List (List PyVal)) (t : DimTable), (∀ c ∈ cs, c.length = s.ncols) →
      dimRowsWF s.ncols t → cntProj s.uniqueCols t K ≤ 1 →
      dimRowsWF s.ncols (runCalls s t cs) ∧
      cntProj s.uniqueCols (runCalls s t cs) K ≤ 1 ∧
      cntProj s.uniqueCols t K ≤ cntProj s.uniqueCols (runCalls s t cs) K ∧
      ((∃ c ∈ cs, projMatch s.uniqueCols c K = true) →
        1 ≤ cntProj s.uniqueCols (runCalls s t cs) K) := by
  intro cs
  induction cs with
  | nil =>
    intro t _ hwf hle
    refine ⟨hwf, hle, le_refl _, fun hex => ?_⟩
    obtain ⟨c, hc, _⟩ := hex
    exact absurd hc (List.not_mem_nil c)
  | cons c cs ih =>
    intro t hlen hwf hle
    have hc : c.length = s.ncols := hlen c (List.mem_cons_self c cs)
    have hlen2 : ∀ x ∈ cs, x.length = s.ncols :=
      fun x hx => hlen x (List.mem_cons_of_mem c hx)
    obtain ⟨hwf1, hle1, hmono1, hex1⟩ := gocd_step_cnt s K hK hsane t c hc hwf hle
    have hrun : runCalls s t (c :: cs) = runCalls s (getOrCreateDim s t 0 c).2.1 cs := by
      rw [runCalls, List.foldl_cons]
      rfl
    obtain ⟨hwf2, hle2, hmono2, hex2⟩ := ih (getOrCreateDim s t 0 c).2.1 hlen2 hwf1 hle1
    rw [hrun]
    refine ⟨hwf2, hle2, le_trans hmono1 hmono2, fun hex => ?_⟩
    rcases hex with ⟨x, hx, hxm⟩
    rcases List.mem_cons.mp hx with hx | hx
    · subst hx
      exact le_trans (hex1 hxm) hmono2
    · exact hex2 ⟨x, hx, hxm⟩

/-- C2: for every storable natural-key tuple `K` of any of the five
warehouse dimension tables (NULL components compared with IS NULL), after
any sequence of `_get_or_create_dim` calls from a fresh table, at most one
row agrees with `K` on the table's natural-key (UNIQUE-constraint) columns,
and exactly one as soon as some call carried natural key `K` — the upsert
engine never creates two rows with the same natural key. -/
theorem dim_natural_key_unique (s : DimSchema) (hs : s ∈ warehouseDimSchemas)
    (cs : List (List PyVal)) (hcs : ∀ c ∈ cs, c.length = s.ncols)
    (K : List PyVal) (hK : K.length = s.ncols) (hsane : saneKey s K) :
    cntProj s.uniqueCols (runCalls s emptyDim cs) K ≤ 1 ∧
    ((∃ c ∈ cs, projMatch s.uniqueCols c K = true) →
      cntProj s.uniqueCols (runCalls s emptyDim cs) K = 1) := by
  obtain ⟨hwf, hle, _, hex⟩ := runCalls_cnt s K hK hsane cs emptyDim hcs
    (fun r hr => absurd hr (List.not_mem_nil r)) (by simp [cntProj, emptyDim])
  exact ⟨hle, fun h => le_antisymm hle (hex h)⟩

/-- Witness for `dim_natural_key_unique`: three calls against a fresh
`dim_reaction` (two with the same name) leave exactly one "Vomiting" row. -/
theorem dim_natural_key_unique_witness :
    cntProj reactionSchema.uniqueCols
      (runCalls reactionSchema emptyDim
        [[.str "Vomiting"], [.str "Lethargy"], [.str "Vomiting"]])
      [.str "Vomiting"] = 1 :=
  (dim_natural_key_unique reactionSchema (by decide)
    [[.str "Vomiting"], [.str "Lethargy"], [.str "Vomiting"]] (by decide)
    [.str "Vomiting"] (by decide)
    (Or.inl ⟨by decide, by decide⟩)).2
    ⟨[.str "Vomiting"], by decide, by decide⟩

/-! ### Loader step lemmas (claims C1/C4/C7/C10) -/

theorem truthy_ne_none {v : PyVal} (h : truthy v = true) : v ≠ PyVal.none := by
  intro h0
  rw [h0] at h
  exact absurd h (by decide)

theorem whExt_refl (w : Warehouse) : whExt w w :=
  ⟨listExt_refl _, listExt_refl _, listExt_refl _, listExt_refl _, listExt_refl _,
   listExt_refl _, listExt_refl _, listExt_refl _, listExt_refl _⟩

theorem whExt_trans {a b c : Warehouse} (h1 : whExt a b) (h2 : whExt b c) : whExt a c :=
  ⟨listExt_trans h1.1 h2.1, listExt_trans h1.2.1 h2.2.1,
   listExt_trans h1.2.2.1 h2.2.2.1, listExt_trans h1.2.2.2.1 h2.2.2.2.1,
   listExt_trans h1.2.2.2.2.1 h2.2.2.2.2.1, listExt_trans h1.2.2.2.2.2.1 h2.2.2.2.2.2.1,
   listExt_trans h1.2.2.2.2.2.2.1 h2.2.2.2.2.2.2.1,
   listExt_trans h1.2.2.2.2.2.2.2.1 h2.2.2.2.2.2.2.2.1,
   listExt_trans h1.2.2.2.2.2.2.2.2 h2.2.2.2.2.2.2.2.2⟩

theorem dimFind_of_dimExt {t t' : DimTable} {v : List PyVal} {r : Nat × List PyVal}
    (hext : dimExt t t') (h : dimFind t v = some r) : dimFind t' v = some r :=
  find?_of_listExt _ r hext h

theorem foldl_fixpoint {α β : Type} (f : β → α → β) :
    ∀ (l : List α) (c : β), (∀ x ∈ l, f c x = c) → l.foldl f c = c := by
  intro l
  induction l with
  | nil => intro c _; rfl
  | cons x xs ih =>
    intro c h
    rw [List.foldl_cons, h x (List.mem_cons_self x xs)]
    exact ih c (fun y hy => h y (List.mem_cons_of_mem x hy))

theorem linkReaction_fix {w : Warehouse} {lr ek : Nat} {nm : String} {k : Nat}
    (hdim : dimFind w.reaction [.str nm] = some (k, [.str nm]))
    (hbr : (ek, k) ∈ w.bridgeReaction.pairs) :
    linkReaction ⟨w, lr⟩ ek nm = ⟨w, lr⟩ := by
  simp only [linkReaction, gocd_found hdim, bridgeInsert_mem hbr]

theorem linkOutcome_fix {w : Warehouse} {lr ek : Nat} {nm : String} {k : Nat}
    (hdim : dimFind w.outcome [.str nm] = some (k, [.str nm]))
    (hbr : (ek, k) ∈ w.bridgeOutcome.pairs) :
    linkOutcome ⟨w, lr⟩ ek nm = ⟨w, lr⟩ := by
  simp only [linkOutcome, gocd_found hdim, bridgeInsert_mem hbr]

theorem linkIngredient_fix {w : Warehouse} {lr ek : Nat} {nm : String} {k : Nat}
    (hdim : dimFind w.ingredient [.str nm] = some (k, [.str nm]))
    (hbr : (ek, k) ∈ w.bridgeIngredient.pairs) :
    linkIngredient ⟨w, lr⟩ ek nm = ⟨w, lr⟩ := by
  simp only [linkIngredient, gocd_found hdim, bridgeInsert_mem hbr]

theorem linkReaction_establish (c : Conn) (ek : Nat) (nm : String)
    (hwf : dimRowsWF 1 c.wh.reaction) :
    (∃ k, dimFind (linkReaction c ek nm).wh.reaction [.str nm] = some (k, [.str nm]) ∧
      (ek, k) ∈ (linkReaction c ek nm).wh.bridgeReaction.pairs) ∧
    dimRowsWF 1 (linkReaction c ek nm).wh.reaction ∧
    dimExt c.wh.reaction (linkReaction c ek nm).wh.reaction ∧
    listExt c.wh.bridgeReaction.pairs (linkReaction c ek nm).wh.bridgeReaction.pairs ∧
    (linkReaction c ek nm).wh.breed = c.wh.breed ∧
    (linkReaction c ek nm).wh.geo = c.wh.geo ∧
    (linkReaction c ek nm).wh.outcome = c.wh.outcome ∧
    (linkReaction c ek nm).wh.ingredient = c.wh.ingredient ∧
    (linkReaction c ek nm).wh.fact = c.wh.fact ∧
    (linkReaction c ek nm).wh.bridgeOutcome = c.wh.bridgeOutcome ∧
    (linkReaction c ek nm).wh.bridgeIngredient = c.wh.bridgeIngredient := by
  obtain ⟨hfind, hwf2, _⟩ :=
    gocd_single_resolves reactionSchema rfl rfl c.wh.reaction hwf c.lastRowid nm
  exact ⟨⟨(getOrCreateDim reactionSchema c.wh.reaction c.lastRowid [.str nm]).1, hfind,
      bridgeInsert_pairs_mem _ _ _⟩,
    hwf2, gocd_ext _ _ _ _, bridgeInsert_ext _ _ _, rfl, rfl, rfl, rfl, rfl, rfl, rfl⟩

theorem linkOutcome_establish (c : Conn) (ek : Nat) (nm : String)
    (hwf : dimRowsWF 1 c.wh.outcome) :
    (∃ k, dimFind (linkOutcome c ek nm).wh.outcome [.str nm] = some (k, [.str nm]) ∧
      (ek, k) ∈ (linkOutcome c ek nm).wh.bridgeOutcome.pairs) ∧
    dimRowsWF 1 (linkOutcome c ek nm).wh.outcome ∧
    dimExt c.wh.outcome (linkOutcome c ek nm).wh.outcome ∧
    listExt c.wh.bridgeOutcome.pairs (linkOutcome c ek nm).wh.bridgeOutcome.pairs ∧
    (linkOutcome c ek nm).wh.breed = c.wh.breed ∧
    (linkOutcome c ek nm).wh.geo = c.wh.geo ∧
    (linkOutcome c ek nm).wh.reaction = c.wh.reaction ∧
    (linkOutcome c ek nm).wh.ingredient = c.wh.ingredient ∧
    (linkOutcome c ek nm).wh.fact = c.wh.fact ∧
    (linkOutcome c ek nm).wh.bridgeReaction = c.wh.bridgeReaction ∧
    (linkOutcome c ek nm).wh.bridgeIngredient = c.wh.bridgeIngredient := by
  obtain ⟨hfind, hwf2, _⟩ :=
    gocd_single_resolves outcomeSchema rfl rfl c.wh.outcome hwf c.lastRowid nm
  exact ⟨⟨(getOrCreateDim outcomeSchema c.wh.outcome c.lastRowid [.str nm]).1, hfind,
      bridgeInsert_pairs_mem _ _ _⟩,
    hwf2, gocd_ext _ _ _ _, bridgeInsert_ext _ _ _, rfl, rfl, rfl, rfl, rfl, rfl, rfl⟩

theorem linkIngredient_establish (c : Conn) (ek : Nat) (nm : String)
    (hwf : dimRowsWF 1 c.wh.ingredient) :
    (∃ k, dimFind (linkIngredient c ek nm).wh.ingredient [.str nm] = some (k, [.str nm]) ∧
      (ek, k) ∈ (linkIngredient c ek nm).wh.bridgeIngredient.pairs) ∧
    dimRowsWF 1 (linkIngredient c ek nm).wh.ingredient ∧
    dimExt c.wh.ingredient (linkIngredient c ek nm).wh.ingredient ∧
    listExt c.wh.bridgeIngredient.pairs (linkIngredient c ek nm).wh.bridgeIngredient.pairs ∧
    (linkIngredient c ek nm).wh.breed = c.wh.breed ∧
    (linkIngredient c ek nm).wh.geo = c.wh.geo ∧
    (linkIngredient c ek nm).wh.reaction = c.wh.reaction ∧
    (linkIngredient c ek nm).wh.outcome = c.wh.outcome ∧
    (linkIngredient c ek nm).wh.fact = c.wh.fact ∧
    (linkIngredient c ek nm).wh.bridgeReaction = c.wh.bridgeReaction ∧
    (linkIngredient c ek nm).wh.bridgeOutcome = c.wh.bridgeOutcome := by
  obtain ⟨hfind, hwf2, _⟩ :=
    gocd_single_resolves ingredientSchema rfl rfl c.wh.ingredient hwf c.lastRowid nm
  exact ⟨⟨(getOrCreateDim ingredientSchema c.wh.ingredient c.lastRowid [.str nm]).1, hfind,
      bridgeInsert_pairs_mem _ _ _⟩,
    hwf2, gocd_ext _ _ _ _, bridgeInsert_ext _ _ _, rfl, rfl, rfl, rfl, rfl, rfl, rfl⟩

theorem linkReaction_fold (ek : Nat) :
    ∀ (l : List String) (c cr : Conn),
      cr = l.foldl (fun cc nm => linkReaction cc ek nm) c →
      dimRowsWF 1 c.wh.reaction →
      dimRowsWF 1 cr.wh.reaction ∧
      dimExt c.wh.reaction cr.wh.reaction ∧
      listExt c.wh.bridgeReaction.pairs cr.wh.bridgeReaction.pairs ∧
      cr.wh.breed = c.wh.breed ∧ cr.wh.geo = c.wh.geo ∧
      cr.wh.outcome = c.wh.outcome ∧ cr.wh.ingredient = c.wh.ingredient ∧
      cr.wh.fact = c.wh.fact ∧ cr.wh.bridgeOutcome = c.wh.bridgeOutcome ∧
      cr.wh.bridgeIngredient = c.wh.bridgeIngredient ∧
      (∀ nm ∈ l, ∃ k, dimFind cr.wh.reaction [.str nm] = some (k, [.str nm]) ∧
        (ek, k) ∈ cr.wh.bridgeReaction.pairs) := by
  intro l
  induction l with
  | nil =>
    intro c cr hcr hwf
    subst hcr
    exact ⟨hwf, listExt_refl _, listExt_refl _, rfl, rfl, rfl, rfl, rfl, rfl, rfl,
      fun nm hnm => absurd hnm (List.not_mem_nil nm)⟩
  | cons nm l ih =>
    intro c cr hcr hwf
    obtain ⟨⟨k, hk, hkb⟩, hwf1, hext1, hbext1, e1, e2, e3, e4, e5, e6, e7⟩ :=
      linkReaction_establish c ek nm hwf
    obtain ⟨hwfr, hextr, hbextr, f1, f2, f3, f4, f5, f6, f7, hall⟩ :=
      ih (linkReaction c ek nm) cr (by rw [hcr, List.foldl_cons]) hwf1
    refine ⟨hwfr, listExt_trans hext1 hextr, listExt_trans hbext1 hbextr,
      f1.trans e1, f2.trans e2, f3.trans e3, f4.trans e4, f5.trans e5,
      f6.trans e6, f7.trans e7, ?_⟩
    intro x hx
    rcases List.mem_cons.mp hx with hx | hx
    · subst hx
      exact ⟨k, dimFind_of_dimExt hextr hk, mem_of_listExt hbextr hkb⟩
    · exact hall x hx

theorem linkOutcome_fold (ek : Nat) :
    ∀ (l : List String) (c cr : Conn),
      cr = l.foldl (fun cc nm => linkOutcome cc ek nm) c →
      dimRowsWF 1 c.wh.outcome →
      dimRowsWF 1 cr.wh.outcome ∧
      dimExt c.wh.outcome cr.wh.outcome ∧
      listExt c.wh.bridgeOutcome.pairs cr.wh.bridgeOutcome.pairs ∧
      cr.wh.breed = c.wh.breed ∧ cr.wh.geo = c.wh.geo ∧
      cr.wh.reaction = c.wh.reaction ∧ cr.wh.ingredient = c.wh.ingredient ∧
      cr.wh.fact = c.wh.fact ∧ cr.wh.bridgeReaction = c.wh.bridgeReaction ∧
      cr.wh.bridgeIngredient = c.wh.bridgeIngredient ∧
      (∀ nm ∈ l, ∃ k, dimFind cr.wh.outcome [.str nm] = some (k, [.str nm]) ∧
        (ek, k) ∈ cr.wh.bridgeOutcome.pairs) := by
  intro l
  induction l with
  | nil =>
    intro c cr hcr hwf
    subst hcr
    exact ⟨hwf, listExt_refl _, listExt_refl _, rfl, rfl, rfl, rfl, rfl, rfl, rfl,
      fun nm hnm => absurd hnm (List.not_mem_nil nm)⟩
  | cons nm l ih =>
    intro c cr hcr hwf
    obtain ⟨⟨k, hk, hkb⟩, hwf1, hext1, hbext1, e1, e2, e3, e4, e5, e6, e7⟩ :=
      linkOutcome_establish c ek nm hwf
    obtain ⟨hwfr, hextr, hbextr, f1, f2, f3, f4, f5, f6, f7, hall⟩ :=
      ih (linkOutcome c ek nm) cr (by rw [hcr, List.foldl_cons]) hwf1
    refine ⟨hwfr, listExt_trans hext1 hextr, listExt_trans hbext1 hbextr,
      f1.trans e1, f2.trans e2, f3.trans e3, f4.trans e4, f5.trans e5,
      f6.trans e6, f7.trans e7, ?_⟩
    intro x hx
    rcases List.mem_cons.mp hx with hx | hx
    · subst hx
      exact ⟨k, dimFind_of_dimExt hextr hk, mem_of_listExt hbextr hkb⟩
    · exact hall x hx

theorem linkIngredient_fold (ek : Nat) :
    ∀ (l : List String) (c cr : Conn),
      cr = l.foldl (fun cc nm => linkIngredient cc ek nm) c →
      dimRowsWF 1 c.wh.ingredient →
      dimRowsWF 1 cr.wh.ingredient ∧
      dimExt c.wh.ingredient cr.wh.ingredient ∧
      listExt c.wh.bridgeIngredient.pairs cr.wh.bridgeIngredient.pairs ∧
      cr.wh.breed = c.wh.breed ∧ cr.wh.geo = c.wh.geo ∧
      cr.wh.reaction = c.wh.reaction ∧ cr.wh.outcome = c.wh.outcome ∧
      cr.wh.fact = c.wh.fact ∧ cr.wh.bridgeReaction = c.wh.bridgeReaction ∧
      cr.wh.bridgeOutcome = c.wh.bridgeOutcome ∧
      (∀ nm ∈ l, ∃ k, dimFind cr.wh.ingredient [.str nm] = some (k, [.str nm]) ∧
        (ek, k) ∈ cr.wh.bridgeIngredient.pairs) := by
  intro l
  induction l with
  | nil =>
    intro c cr hcr hwf
    subst hcr
    exact ⟨hwf, listExt_refl _, listExt_refl _, rfl, rfl, rfl, rfl, rfl, rfl, rfl,
      fun nm hnm => absurd hnm (List.not_mem_nil nm)⟩
  | cons nm l ih =>
    intro c cr hcr hwf
    obtain ⟨⟨k, hk, hkb⟩, hwf1, hext1, hbext1, e1, e2, e3, e4, e5, e6, e7⟩ :=
      linkIngredient_establish c ek nm hwf
    obtain ⟨hwfr, hextr, hbextr, f1, f2, f3, f4, f5, f6, f7, hall⟩ :=
      ih (linkIngredient c ek nm) cr (by rw [hcr, List.foldl_cons]) hwf1
    refine ⟨hwfr, listExt_trans hext1 hextr, listExt_trans hbext1 hbextr,
      f1.trans e1, f2.trans e2, f3.trans e3, f4.trans e4, f5.trans e5,
      f6.trans e6, f7.trans e7, ?_⟩
    intro x hx
    rcases List.mem_cons.mp hx with hx | hx
    · subst hx
      exact ⟨k, dimFind_of_dimExt hextr hk, mem_of_listExt hbextr hkb⟩
    · exact hall x hx

/-- `recordFits` is preserved when the warehouse only grows. -/
theorem recordFits_persist {fs : List (String × PyVal)} {w w' : Warehouse}
    (h : recordFits fs w) (hext : whExt w w') : recordFits fs w' := by
  rcases h with h | ⟨afs, hafs, hdays, hgeo, hbreed, fr, hfr, hreac, hout, hing⟩
  · exact Or.inl h
  · refine Or.inr ⟨afs, hafs, hdays, ?_, ?_, fr, find?_of_listExt _ fr hext.2.2.2.2.2.1 hfr,
      ?_, ?_, ?_⟩
    · rw [Option.isSome_iff_exists] at hgeo ⊢
      obtain ⟨r, hr⟩ := hgeo
      exact ⟨r, dimFind_of_dimExt hext.2.1 hr⟩
    · intro bn hbn hsp
      obtain ⟨sl, hsl, hcase⟩ := hbreed bn hbn hsp
      refine ⟨sl, hsl, ?_⟩
      rcases hcase with hc | hc
      · rw [Option.isSome_iff_exists] at hc ⊢
        obtain ⟨r, hr⟩ := hc
        exact Or.inl ⟨r, dimFind_of_dimExt hext.1 hr⟩
      · exact Or.inr (uniqueConflict_of_dimExt hc hext.1)
    · obtain ⟨rnames, hrn, hall⟩ := hreac
      refine ⟨rnames, hrn, fun nm hnm => ?_⟩
      obtain ⟨k, hk, hkb⟩ := hall nm hnm
      exact ⟨k, dimFind_of_dimExt hext.2.2.1 hk,
        mem_of_listExt hext.2.2.2.2.2.2.1 hkb⟩
    · obtain ⟨onames, hon, hall⟩ := hout
      refine ⟨onames, hon, fun nm hnm => ?_⟩
      obtain ⟨k, hk, hkb⟩ := hall nm hnm
      exact ⟨k, dimFind_of_dimExt hext.2.2.2.1 hk,
        mem_of_listExt hext.2.2.2.2.2.2.2.1 hkb⟩
    · obtain ⟨inames, hin, hall⟩ := hing
      refine ⟨inames, hin, fun nm hnm => ?_⟩
      obtain ⟨k, hk, hkb⟩ := hall nm hnm
      exact ⟨k, dimFind_of_dimExt hext.2.2.2.2.1 hk,
        mem_of_listExt hext.2.2.2.2.2.2.2.2 hkb⟩

theorem geoStage_found {w : Warehouse} {lr : Nat} {fs : List (String × PyVal)}
    {rg : Nat × List PyVal}
    (hrg : dimFind w.geo [pyGet fs "state", pyGet fs "country"] = some rg) :
    geoStage ⟨w, lr⟩ fs = (rg.1, ⟨w, lr⟩) := by
  simp only [geoStage, gocd_found hrg]

theorem factStage_conflict {w : Warehouse} {lr : Nat} {d : FactData}
    {fr : Nat × FactData}
    (hfr : w.fact.rows.find? (fun r => nonNullEq r.2.reportId d.reportId) = some fr) :
    factStage ⟨w, lr⟩ d = (some fr.1, ⟨w, lr⟩) := by
  have hpred : nonNullEq fr.2.reportId d.reportId = true := by
    have := List.find?_some hfr
    simpa using this
  have hany : w.fact.rows.any (fun r => nonNullEq r.2.reportId d.reportId) = true :=
    List.any_eq_true.mpr ⟨fr, List.mem_of_find?_eq_some hfr, hpred⟩
  simp only [factStage, insertFact_conflict hany hfr]

theorem resolveBreedKey_fix {w : Warehouse} {lr : Nat} {afs : List (String × PyVal)}
    (hbreed : ∀ bn, extractBreedName afs = some bn →
      truthy (pyGet afs "species") = true →
      ∃ sl, lowerOrErr (pyGet afs "species") = .ok sl ∧
        ((dimFind w.breed [.str bn, .str sl, PyVal.none, PyVal.none, .str "openfda"]).isSome ∨
          uniqueConflict breedSchema w.breed
            [.str bn, .str sl, PyVal.none, PyVal.none, .str "openfda"] = true)) :
    ∃ bk, resolveBreedKey ⟨w, lr⟩ (extractBreedName afs) (pyGet afs "species") =
      .ok (bk, ⟨w, lr⟩) := by
  cases hbn : extractBreedName afs with
  | none =>
    refine ⟨Option.none, ?_⟩
    simp [resolveBreedKey, hbn]
  | some bn =>
    by_cases hsp : truthy (pyGet afs "species") = true
    · obtain ⟨sl, hsl, hcase⟩ := hbreed bn hbn hsp
      rcases hcase with hc | hc
      · rw [Option.isSome_iff_exists] at hc
        obtain ⟨r, hr⟩ := hc
        refine ⟨some r.1, ?_⟩
        simp [resolveBreedKey, hbn, hsp, hsl, gocd_found hr]
      · cases hfind : dimFind w.breed
            [.str bn, .str sl, PyVal.none, PyVal.none, .str "openfda"] with
        | some r =>
          refine ⟨some r.1, ?_⟩
          simp [resolveBreedKey, hbn, hsp, hsl, gocd_found hfind]
        | none =>
          refine ⟨some lr, ?_⟩
          have hig := @gocd_miss_ignore _ _ lr _ hfind
            (by rw [Bool.or_eq_true]; exact Or.inl hc)
          simp [resolveBreedKey, hbn, hsp, hsl, hig]
    · refine ⟨Option.none, ?_⟩
      simp [resolveBreedKey, hbn, hsp]

theorem linkStage_fix {w : Warehouse} {lr ek : Nat} {fs : List (String × PyVal)}
    {rnames onames inames : List String}
    (hrn : extractReactions fs = .ok rnames)
    (hreac : ∀ nm ∈ rnames, ∃ k, dimFind w.reaction [.str nm] = some (k, [.str nm]) ∧
      (ek, k) ∈ w.bridgeReaction.pairs)
    (hon : extractOutcomes fs = .ok onames)
    (hout : ∀ nm ∈ onames, ∃ k, dimFind w.outcome [.str nm] = some (k, [.str nm]) ∧
      (ek, k) ∈ w.bridgeOutcome.pairs)
    (hin : extractActiveIngredients fs = .ok inames)
    (hing : ∀ nm ∈ inames, ∃ k, dimFind w.ingredient [.str nm] = some (k, [.str nm]) ∧
      (ek, k) ∈ w.bridgeIngredient.pairs) :
    linkStage ⟨w, lr⟩ fs ek = .ok ⟨w, lr⟩ := by
  have h4 : rnames.foldl (fun cc nm => linkReaction cc ek nm) ⟨w, lr⟩ = ⟨w, lr⟩ :=
    foldl_fixpoint (fun cc nm => linkReaction cc ek nm) rnames (⟨w, lr⟩ : Conn) (fun nm hnm => by
      obtain ⟨k, h1, h2⟩ := hreac nm hnm
      exact linkReaction_fix h1 h2)
  have h5 : onames.foldl (fun cc nm => linkOutcome cc ek nm) ⟨w, lr⟩ = ⟨w, lr⟩ :=
    foldl_fixpoint (fun cc nm => linkOutcome cc ek nm) onames (⟨w, lr⟩ : Conn) (fun nm hnm => by
      obtain ⟨k, h1, h2⟩ := hout nm hnm
      exact linkOutcome_fix h1 h2)
  have h6 : inames.foldl (fun cc nm => linkIngredient cc ek nm) ⟨w, lr⟩ = ⟨w, lr⟩ :=
    foldl_fixpoint (fun cc nm => linkIngredient cc ek nm) inames (⟨w, lr⟩ : Conn) (fun nm hnm => by
      obtain ⟨k, h1, h2⟩ := hing nm hnm
      exact linkIngredient_fix h1 h2)
  simp only [linkStage, hrn, hon, hin, h4, h5, h6]

/-- Re-processing a record that already fits the warehouse is a no-op. -/
theorem processParsed_of_recordFits {fs : List (String × PyVal)} {w : Warehouse}
    (h : recordFits fs w) (lr : Nat) :
    processParsed ⟨w, lr⟩ fs = .ok ⟨w, lr⟩ := by
  by_cases hrid : truthy (pyOr (pyGet fs "unique_number") (pyGet fs "report_id")) = false
  · simp [processParsed, hrid]
  · rcases h with h | hmain
    · exact absurd h hrid
    obtain ⟨afs, hafs, ⟨days, hdays⟩, hgeo, hbreed, fr, hfr,
      ⟨rnames, hrn, hreac⟩, ⟨onames, hon, hout⟩, ⟨inames, hin, hing⟩⟩ := hmain
    rw [Option.isSome_iff_exists] at hgeo
    obtain ⟨rg, hrg⟩ := hgeo
    obtain ⟨bk, hres⟩ := @resolveBreedKey_fix _ lr _ hbreed
    have hpred : nonNullEq fr.2.reportId
        (factDataOf fs afs bk (some rg.1) days).reportId = true := by
      have := List.find?_some hfr
      simpa [factDataOf] using this
    have hany : w.fact.rows.any (fun r => nonNullEq r.2.reportId
        (factDataOf fs afs bk (some rg.1) days).reportId) = true :=
      List.any_eq_true.mpr ⟨fr, List.mem_of_find?_eq_some hfr, hpred⟩
    have hfr2 : w.fact.rows.find? (fun r => nonNullEq r.2.reportId
        (factDataOf fs afs bk (some rg.1) days).reportId) = some fr := by
      simpa [factDataOf] using hfr
    have hfacteq : factStage ⟨w, lr⟩ (factDataOf fs afs bk (some rg.1) days) =
        (some fr.1, ⟨w, lr⟩) := by
      simp only [factStage, insertFact_conflict hany hfr2]
    have hlinkeq : linkStage ⟨w, lr⟩ fs fr.1 = .ok ⟨w, lr⟩ :=
      linkStage_fix hrn hreac hon hout hin hing
    simp only [processParsed]
    rw [if_neg hrid, hafs]
    simp only [hdays, geoStage_found hrg, hres, hfacteq, hlinkeq]

theorem dimFind_insert_self {t : DimTable} {v : List PyVal} {k : Nat}
    (h : dimFind t v = Option.none) :
    dimFind ⟨t.rows ++ [(k, v)], t.nextKey + 1⟩ v = some (k, v) := by
  show List.find? _ (t.rows ++ [(k, v)]) = _
  rw [find?_append_of_none _ _ _ h]
  simp [dimFind]

theorem gocd_cnt_bound (s : DimSchema) (t : DimTable) (lr : Nat) (v : List PyVal) :
    ∀ u, cntDimRows (getOrCreateDim s t lr v).2.1 u ≤ max 1 (cntDimRows t u) := by
  intro u
  cases hfind : dimFind t v with
  | some r =>
    rw [gocd_found hfind]
    exact le_max_of_le_right (le_refl _)
  | none =>
    cases hc : (uniqueConflict s t v || notNullViol s v) with
    | true =>
      rw [gocd_miss_ignore hfind hc]
      exact le_max_of_le_right (le_refl _)
    | false =>
      rw [gocd_miss_insert hfind hc]
      by_cases hvu : v = u
      · subst hvu
        have hz : cntDimRows t v = 0 := by
          rw [cntDimRows, List.countP_eq_zero]
          intro r hr
          simpa using dimFind_none hfind r hr
        have : cntDimRows ⟨t.rows ++ [(t.nextKey, v)], t.nextKey + 1⟩ v = 1 := by
          rw [cntDimRows, List.countP_append]
          rw [cntDimRows] at hz
          rw [hz]
          simp
        rw [this]
        exact le_max_left _ _
      · have : cntDimRows ⟨t.rows ++ [(t.nextKey, v)], t.nextKey + 1⟩ u = cntDimRows t u := by
          rw [cntDimRows, List.countP_append, cntDimRows]
          simp [hvu]
        rw [this]
        exact le_max_of_le_right (le_refl _)

theorem resolveBreedKey_establish {c : Conn} {afs : List (String × PyVal)}
    (hwf5 : dimRowsWF 5 c.wh.breed) :
    (∃ e, resolveBreedKey c (extractBreedName afs) (pyGet afs "species") = .error e) ∨
    (∃ bk c2, resolveBreedKey c (extractBreedName afs) (pyGet afs "species") = .ok (bk, c2) ∧
      dimRowsWF 5 c2.wh.breed ∧ dimExt c.wh.breed c2.wh.breed ∧
      c2.wh.geo = c.wh.geo ∧ c2.wh.reaction = c.wh.reaction ∧
      c2.wh.outcome = c.wh.outcome ∧ c2.wh.ingredient = c.wh.ingredient ∧
      c2.wh.fact = c.wh.fact ∧ c2.wh.bridgeReaction = c.wh.bridgeReaction ∧
      c2.wh.bridgeOutcome = c.wh.bridgeOutcome ∧
      c2.wh.bridgeIngredient = c.wh.bridgeIngredient ∧
      (∀ bn, extractBreedName afs = some bn → truthy (pyGet afs "species") = true →
        ∃ sl, lowerOrErr (pyGet afs "species") = .ok sl ∧
          ((dimFind c2.wh.breed
              [.str bn, .str sl, PyVal.none, PyVal.none, .str "openfda"]).isSome ∨
            uniqueConflict breedSchema c2.wh.breed
              [.str bn, .str sl, PyVal.none, PyVal.none, .str "openfda"] = true))) := by
  cases hbn : extractBreedName afs with
  | none =>
    right
    refine ⟨Option.none, c, by simp [resolveBreedKey, hbn], hwf5, listExt_refl _,
      rfl, rfl, rfl, rfl, rfl, rfl, rfl, rfl, ?_⟩
    intro bn hbn2 _
    exact absurd hbn2 (by simp)
  | some bn =>
    by_cases hsp : truthy (pyGet afs "species") = true
    · cases hlow : lowerOrErr (pyGet afs "species") with
      | error e =>
        left
        exact ⟨e, by simp [resolveBreedKey, hbn, hsp, hlow]⟩
      | ok sl =>
        right
        rcases gocd_breed_cases c.wh.breed c.lastRowid bn sl with
          ⟨r, hfind, heq⟩ | ⟨hfind, hconf, heq⟩ | ⟨hfind, hconf, heq⟩
        · refine ⟨some r.1, c, by simp [resolveBreedKey, hbn, hsp, hlow, heq], hwf5,
            listExt_refl _, rfl, rfl, rfl, rfl, rfl, rfl, rfl, rfl, ?_⟩
          intro bn2 hbn2 _
          cases Option.some.inj hbn2
          refine ⟨sl, rfl, Or.inl ?_⟩
          rw [Option.isSome_iff_exists]
          exact ⟨r, hfind⟩
        · refine ⟨some c.lastRowid, c, by simp [resolveBreedKey, hbn, hsp, hlow, heq],
            hwf5, listExt_refl _, rfl, rfl, rfl, rfl, rfl, rfl, rfl, rfl, ?_⟩
          intro bn2 hbn2 _
          cases Option.some.inj hbn2
          exact ⟨sl, rfl, Or.inr hconf⟩
        · refine ⟨some c.wh.breed.nextKey,
            ⟨{ c.wh with breed := ⟨c.wh.breed.rows ++ [(c.wh.breed.nextKey,
              [.str bn, .str sl, PyVal.none, PyVal.none, .str "openfda"])],
              c.wh.breed.nextKey + 1⟩ }, c.wh.breed.nextKey⟩,
            by simp [resolveBreedKey, hbn, hsp, hlow, heq], ?_, ?_,
            rfl, rfl, rfl, rfl, rfl, rfl, rfl, rfl, ?_⟩
          · intro r hr
            simp only at hr
            rcases List.mem_append.mp hr with hr | hr
            · exact hwf5 r hr
            · rw [List.mem_singleton] at hr
              rw [hr]
              rfl
          · exact listExt_append _ _
          · intro bn2 hbn2 _
            cases Option.some.inj hbn2
            refine ⟨sl, rfl, Or.inl ?_⟩
            rw [Option.isSome_iff_exists]
            exact ⟨(c.wh.breed.nextKey,
              [.str bn, .str sl, PyVal.none, PyVal.none, .str "openfda"]),
              dimFind_insert_self hfind⟩
    · right
      refine ⟨Option.none, c, by simp [resolveBreedKey, hbn, hsp], hwf5, listExt_refl _,
        rfl, rfl, rfl, rfl, rfl, rfl, rfl, rfl, ?_⟩
      intro bn2 _ hsp2
      exact absurd hsp2 hsp

theorem factStage_establish (c : Conn) (d : FactData) (hne : d.reportId ≠ PyVal.none) :
    ∃ fr c3, c3.wh.fact.rows.find? (fun r => nonNullEq r.2.reportId d.reportId) = some fr ∧
      factStage c d = (some fr.1, c3) ∧
      listExt c.wh.fact.rows c3.wh.fact.rows ∧
      c3.wh.breed = c.wh.breed ∧ c3.wh.geo = c.wh.geo ∧ c3.wh.reaction = c.wh.reaction ∧
      c3.wh.outcome = c.wh.outcome ∧ c3.wh.ingredient = c.wh.ingredient ∧
      c3.wh.bridgeReaction = c.wh.bridgeReaction ∧
      c3.wh.bridgeOutcome = c.wh.bridgeOutcome ∧
      c3.wh.bridgeIngredient = c.wh.bridgeIngredient ∧
      (∀ x ∈ c3.wh.fact.rows, x ∈ c.wh.fact.rows ∨ x.2 = d) := by
  cases hany : c.wh.fact.rows.any (fun r => nonNullEq r.2.reportId d.reportId) with
  | true =>
    obtain ⟨fr, hfr⟩ := any_find?_some hany
    refine ⟨fr, c, hfr, ?_, listExt_refl _, rfl, rfl, rfl, rfl, rfl, rfl, rfl, rfl,
      fun x hx => Or.inl hx⟩
    simp [factStage, insertFact_conflict hany hfr]
  | false =>
    have hnone : c.wh.fact.rows.find?
        (fun r => nonNullEq r.2.reportId d.reportId) = Option.none := by
      rw [List.find?_eq_none]
      intro x hx
      rcases Bool.eq_false_or_eq_true
          ((fun r => nonNullEq r.2.reportId d.reportId) x) with hx2 | hx2
      · exfalso
        have : c.wh.fact.rows.any (fun r => nonNullEq r.2.reportId d.reportId) = true :=
          List.any_eq_true.mpr ⟨x, hx, hx2⟩
        rw [this] at hany
        exact absurd hany (by simp)
      · simpa using hx2
    refine ⟨(c.wh.fact.nextKey, d),
      ⟨{ c.wh with fact := ⟨c.wh.fact.rows ++ [(c.wh.fact.nextKey, d)],
        c.wh.fact.nextKey + 1⟩ }, c.wh.fact.nextKey⟩, ?_, ?_, listExt_append _ _,
      rfl, rfl, rfl, rfl, rfl, rfl, rfl, rfl, ?_⟩
    · show List.find? _ (c.wh.fact.rows ++ [(c.wh.fact.nextKey, d)]) = _
      rw [find?_append_of_none _ _ _ hnone]
      simp [nonNullEq, hne]
    · simp [factStage, insertFact_fresh hany]
    · intro x hx
      simp only at hx
      rcases List.mem_append.mp hx with hx | hx
      · exact Or.inl hx
      · rw [List.mem_singleton] at hx
        rw [hx]
        exact Or.inr rfl

theorem linkStage_establish (c : Conn) (fs : List (String × PyVal)) (ek : Nat)
    (hwfr : dimRowsWF 1 c.wh.reaction) (hwfo : dimRowsWF 1 c.wh.outcome)
    (hwfi : dimRowsWF 1 c.wh.ingredient) :
    (∃ e, linkStage c fs ek = .error e) ∨
    (∃ c6, linkStage c fs ek = .ok c6 ∧
      dimRowsWF 1 c6.wh.reaction ∧ dimRowsWF 1 c6.wh.outcome ∧
      dimRowsWF 1 c6.wh.ingredient ∧
      dimExt c.wh.reaction c6.wh.reaction ∧ dimExt c.wh.outcome c6.wh.outcome ∧
      dimExt c.wh.ingredient c6.wh.ingredient ∧
      listExt c.wh.bridgeReaction.pairs c6.wh.bridgeReaction.pairs ∧
      listExt c.wh.bridgeOutcome.pairs c6.wh.bridgeOutcome.pairs ∧
      listExt c.wh.bridgeIngredient.pairs c6.wh.bridgeIngredient.pairs ∧
      c6.wh.breed = c.wh.breed ∧ c6.wh.geo = c.wh.geo ∧ c6.wh.fact = c.wh.fact ∧
      (∃ rnames, extractReactions fs = .ok rnames ∧ ∀ nm ∈ rnames, ∃ k,
        dimFind c6.wh.reaction [.str nm] = some (k, [.str nm]) ∧
          (ek, k) ∈ c6.wh.bridgeReaction.pairs) ∧
      (∃ onames, extractOutcomes fs = .ok onames ∧ ∀ nm ∈ onames, ∃ k,
        dimFind c6.wh.outcome [.str nm] = some (k, [.str nm]) ∧
          (ek, k) ∈ c6.wh.bridgeOutcome.pairs) ∧
      (∃ inames, extractActiveIngredients fs = .ok inames ∧ ∀ nm ∈ inames, ∃ k,
        dimFind c6.wh.ingredient [.str nm] = some (k, [.str nm]) ∧
          (ek, k) ∈ c6.wh.bridgeIngredient.pairs)) := by
  cases hrn : extractReactions fs with
  | error e => exact Or.inl ⟨e, by simp [linkStage, hrn]⟩
  | ok rnames =>
  cases hon : extractOutcomes fs with
  | error e => exact Or.inl ⟨e, by simp [linkStage, hrn, hon]⟩
  | ok onames =>
  cases hin : extractActiveIngredients fs with
  | error e => exact Or.inl ⟨e, by simp [linkStage, hrn, hon, hin]⟩
  | ok inames =>
  right
  obtain ⟨wf4, ext4, bext4, e41, e42, e43, e44, e45, e46, e47, hall4⟩ :=
    linkReaction_fold ek rnames c
      (rnames.foldl (fun cc nm => linkReaction cc ek nm) c) rfl hwfr
  obtain ⟨wf5, ext5, bext5, e51, e52, e53, e54, e55, e56, e57, hall5⟩ :=
    linkOutcome_fold ek onames (rnames.foldl (fun cc nm => linkReaction cc ek nm) c)
      (onames.foldl (fun cc nm => linkOutcome cc ek nm)
        (rnames.foldl (fun cc nm => linkReaction cc ek nm) c)) rfl (by rw [e43]; exact hwfo)
  obtain ⟨wf6, ext6, bext6, e61, e62, e63, e64, e65, e66, e67, hall6⟩ :=
    linkIngredient_fold ek inames
      (onames.foldl (fun cc nm => linkOutcome cc ek nm)
        (rnames.foldl (fun cc nm => linkReaction cc ek nm) c))
      (inames.foldl (fun cc nm => linkIngredient cc ek nm)
        (onames.foldl (fun cc nm => linkOutcome cc ek nm)
          (rnames.foldl (fun cc nm => linkReaction cc ek nm) c))) rfl
      (by rw [e54, e44]; exact hwfi)
  refine ⟨_, by simp [linkStage, hrn, hon, hin], ?_, ?_, wf6, ?_, ?_, ?_, ?_, ?_, ?_,
    ?_, ?_, ?_, ?_, ?_, ?_⟩
  · rw [e63, e53]; exact wf4
  · rw [e64]; exact wf5
  · rw [e63, e53]; exact ext4
  · rw [e64]; exact listExt_trans (by rw [e43]; exact listExt_refl _) ext5
  · exact listExt_trans (by rw [e54, e44]; exact listExt_refl _) ext6
  · rw [e66, e56]; exact bext4
  · rw [e67]; exact listExt_trans (by rw [e46]; exact listExt_refl _) bext5
  · exact listExt_trans (by rw [e57, e47]; exact listExt_refl _) bext6
  · rw [e61, e51, e41]
  · rw [e62, e52, e42]
  · rw [e65, e55, e45]
  · refine ⟨rnames, rfl, fun nm hnm => ?_⟩
    obtain ⟨k, hk, hkb⟩ := hall4 nm hnm
    refine ⟨k, ?_, ?_⟩
    · rw [e63, e53]; exact hk
    · rw [e66, e56]; exact hkb
  · refine ⟨onames, rfl, fun nm hnm => ?_⟩
    obtain ⟨k, hk, hkb⟩ := hall5 nm hnm
    refine ⟨k, ?_, ?_⟩
    · rw [e64]; exact hk
    · rw [e67]; exact hkb
  · exact ⟨inames, rfl, hall6⟩

theorem geoStage_establish (c : Conn) (fs : List (String × PyVal))
    (hwfg : dimRowsWF 2 c.wh.geo) :
    ∃ gk c1, geoStage c fs = (gk, c1) ∧
      dimFind c1.wh.geo [pyGet fs "state", pyGet fs "country"] =
        some (gk, [pyGet fs "state", pyGet fs "country"]) ∧
      dimRowsWF 2 c1.wh.geo ∧ dimExt c.wh.geo c1.wh.geo ∧
      (∀ v, cntDimRows c1.wh.geo v ≤ max 1 (cntDimRows c.wh.geo v)) ∧
      c1.wh.breed = c.wh.breed ∧ c1.wh.reaction = c.wh.reaction ∧
      c1.wh.outcome = c.wh.outcome ∧ c1.wh.ingredient = c.wh.ingredient ∧
      c1.wh.fact = c.wh.fact ∧ c1.wh.bridgeReaction = c.wh.bridgeReaction ∧
      c1.wh.bridgeOutcome = c.wh.bridgeOutcome ∧
      c1.wh.bridgeIngredient = c.wh.bridgeIngredient := by
  refine ⟨_, _, rfl, ?_, ?_, ?_, ?_, rfl, rfl, rfl, rfl, rfl, rfl, rfl, rfl⟩
  · exact (gocd_geo_resolves c.wh.geo hwfg c.lastRowid
      [pyGet fs "state", pyGet fs "country"] rfl).1
  · exact (gocd_geo_resolves c.wh.geo hwfg c.lastRowid
      [pyGet fs "state", pyGet fs "country"] rfl).2.1
  · exact gocd_ext _ _ _ _
  · exact gocd_cnt_bound _ _ _ _

/-- A successful pass of the per-record body preserves well-formedness,
only grows the warehouse, leaves the record fitting the resulting
warehouse, bounds the growth of each geo tuple's row count by 1, and gives
every new fact row a geography key resolving to a geo row. -/
theorem processParsed_establishes {fs : List (String × PyVal)} {c c' : Conn}
    (hwf : warehouseWF c.wh) (h : processParsed c fs = .ok c') :
    warehouseWF c'.wh ∧ whExt c.wh c'.wh ∧ recordFits fs c'.wh ∧
    (∀ v, cntDimRows c'.wh.geo v ≤ max 1 (cntDimRows c.wh.geo v)) ∧
    (∀ x ∈ c'.wh.fact.rows, x ∈ c.wh.fact.rows ∨
      ∃ k vs, x.2.geoKey = some k ∧ (k, vs) ∈ c'.wh.geo.rows) := by
  obtain ⟨hwfb, hwfg, hwfr, hwfo, hwfi⟩ := hwf
  by_cases hrid : truthy (pyOr (pyGet fs "unique_number") (pyGet fs "report_id")) = false
  · have hc : c' = c := by
      simp [processParsed, hrid] at h
      exact h.symm
    subst hc
    exact ⟨⟨hwfb, hwfg, hwfr, hwfo, hwfi⟩, whExt_refl _, Or.inl hrid,
      fun v => le_max_of_le_right (le_refl _), fun x hx => Or.inl hx⟩
  cases hafs : pyOr (pyGetD fs "animal" (.dict [])) (.dict []) with
  | none => rw [processParsed, if_neg hrid, hafs] at h; exact absurd h (by simp)
  | bool b => rw [processParsed, if_neg hrid, hafs] at h; exact absurd h (by simp)
  | num q => rw [processParsed, if_neg hrid, hafs] at h; exact absurd h (by simp)
  | str s => rw [processParsed, if_neg hrid, hafs] at h; exact absurd h (by simp)
  | list xs => rw [processParsed, if_neg hrid, hafs] at h; exact absurd h (by simp)
  | dict afs =>
  cases hdays : normalizeDaysToReaction (.dict fs) with
  | error e =>
    rw [processParsed, if_neg hrid, hafs] at h
    simp only [hdays] at h
    exact absurd h (by simp)
  | ok days =>
  obtain ⟨gk, c1, hgs, hgfind, hwfg1, hgext, hgcnt, b1, r1, o1, i1, f1, br1, bo1, bi1⟩ :=
    geoStage_establish c fs hwfg
  rcases @resolveBreedKey_establish c1 afs (by rw [b1]; exact hwfb) with
    ⟨e, herr⟩ | ⟨bk, c2, hok, wf5b, extb, g2, r2, o2, i2, f2, br2, bo2, bi2, hbfits⟩
  · rw [processParsed, if_neg hrid, hafs] at h
    simp only [hdays, hgs, herr] at h
    exact absurd h (by simp)
  · have hne : (factDataOf fs afs bk (some gk) days).reportId ≠ PyVal.none := by
      have : truthy (pyOr (pyGet fs "unique_number") (pyGet fs "report_id")) = true := by
        rcases Bool.eq_false_or_eq_true (truthy (pyOr (pyGet fs "unique_number")
          (pyGet fs "report_id"))) with h2 | h2
        · exact h2
        · exact absurd h2 hrid
      exact truthy_ne_none this
    obtain ⟨fr, c3, hfr3, hfseq, extf, b3, g3, r3, o3, i3, br3, bo3, bi3, hprov⟩ :=
      factStage_establish c2 (factDataOf fs afs bk (some gk) days) hne
    rcases linkStage_establish c3 fs fr.1 (by rw [r3, r2, r1]; exact hwfr)
        (by rw [o3, o2, o1]; exact hwfo) (by rw [i3, i2, i1]; exact hwfi) with
      ⟨e, herr⟩ | ⟨c6, hlok, wf6r, wf6o, wf6i, ext6r, ext6o, ext6i, bext6r, bext6o,
        bext6i, b6, g6, f6, ⟨rnames, hrn, hreac⟩, ⟨onames, hon, hout⟩,
        ⟨inames, hin, hing⟩⟩
    · rw [processParsed, if_neg hrid, hafs] at h
      simp only [hdays, hgs, hok, hfseq, herr] at h
      exact absurd h (by simp)
    · rw [processParsed, if_neg hrid, hafs] at h
      simp only [hdays, hgs, hok, hfseq, hlok] at h
      have hc : c' = c6 := by
        cases h
        rfl
      subst hc
      have hgeo6 : c'.wh.geo = c1.wh.geo := by rw [g6, g3, g2]
      have hbreed6 : c'.wh.breed = c2.wh.breed := by rw [b6, b3]
      have hfact6 : c'.wh.fact = c3.wh.fact := f6
      refine ⟨⟨?_, ?_, wf6r, wf6o, wf6i⟩, ?_, ?_, ?_, ?_⟩
      · rw [hbreed6]; exact wf5b
      · rw [hgeo6]; exact hwfg1
      · refine ⟨?_, ?_, ?_, ?_, ?_, ?_, ?_, ?_, ?_⟩
        · rw [hbreed6]; exact listExt_trans (by rw [b1]; exact listExt_refl _) extb
        · rw [hgeo6]; exact hgext
        · exact listExt_trans (by rw [r3, r2, r1]; exact listExt_refl _) ext6r
        · exact listExt_trans (by rw [o3, o2, o1]; exact listExt_refl _) ext6o
        · exact listExt_trans (by rw [i3, i2, i1]; exact listExt_refl _) ext6i
        · rw [hfact6]
          exact listExt_trans (by rw [f2, f1]; exact listExt_refl _) extf
        · exact listExt_trans (by rw [br3, br2, br1]; exact listExt_refl _) bext6r
        · exact listExt_trans (by rw [bo3, bo2, bo1]; exact listExt_refl _) bext6o
        · exact listExt_trans (by rw [bi3, bi2, bi1]; exact listExt_refl _) bext6i
      · refine Or.inr ⟨afs, hafs, ⟨days, hdays⟩, ?_, ?_, fr, ?_, ⟨rnames, hrn, hreac⟩,
          ⟨onames, hon, hout⟩, ⟨inames, hin, hing⟩⟩
        · rw [hgeo6, Option.isSome_iff_exists]
          exact ⟨(gk, [pyGet fs "state", pyGet fs "country"]), hgfind⟩
        · intro bn hbn hsp
          obtain ⟨sl, hsl, hcase⟩ := hbfits bn hbn hsp
          refine ⟨sl, hsl, ?_⟩
          rw [hbreed6]
          exact hcase
        · rw [hfact6]
          exact hfr3
      · intro v
        rw [hgeo6]
        exact hgcnt v
      · intro x hx
        rw [hfact6] at hx
        rcases hprov x hx with hmem | hnew
        · rw [f2, f1] at hmem
          exact Or.inl hmem
        · right
          refine ⟨gk, [pyGet fs "state", pyGet fs "country"], ?_, ?_⟩
          · rw [hnew]
            rfl
          · rw [hgeo6]
            exact (dimFind_some hgfind).1

theorem recFits_persist {r : Option PyVal} {w w' : Warehouse}
    (h : recFits r w) (hext : whExt w w') : recFits r w' := by
  match r with
  | some (.dict fs) => exact recordFits_persist h hext
  | Option.none => exact h.elim
  | some PyVal.none => exact h.elim
  | some (.bool b) => exact h.elim
  | some (.num q) => exact h.elim
  | some (.str s) => exact h.elim
  | some (.list xs) => exact h.elim

theorem processRecord_establishes {r : Option PyVal} {c c' : Conn}
    (hwf : warehouseWF c.wh) (h : processRecord c r = .ok c') :
    warehouseWF c'.wh ∧ whExt c.wh c'.wh ∧ recFits r c'.wh ∧
    (∀ v, cntDimRows c'.wh.geo v ≤ max 1 (cntDimRows c.wh.geo v)) ∧
    (∀ x ∈ c'.wh.fact.rows, x ∈ c.wh.fact.rows ∨
      ∃ k vs, x.2.geoKey = some k ∧ (k, vs) ∈ c'.wh.geo.rows) := by
  match r with
  | some (.dict fs) => exact processParsed_establishes hwf h
  | Option.none => exact absurd h (by simp [processRecord])
  | some PyVal.none => exact absurd h (by simp [processRecord])
  | some (.bool b) => exact absurd h (by simp [processRecord])
  | some (.num q) => exact absurd h (by simp [processRecord])
  | some (.str s) => exact absurd h (by simp [processRecord])
  | some (.list xs) => exact absurd h (by simp [processRecord])

theorem processRecord_of_recFits {r : Option PyVal} {w : Warehouse}
    (h : recFits r w) (lr : Nat) : processRecord ⟨w, lr⟩ r = .ok ⟨w, lr⟩ := by
  match r with
  | some (.dict fs) => exact processParsed_of_recordFits h lr
  | Option.none => exact h.elim
  | some PyVal.none => exact h.elim
  | some (.bool b) => exact h.elim
  | some (.num q) => exact h.elim
  | some (.str s) => exact h.elim
  | some (.list xs) => exact h.elim

theorem run_establish : ∀ (ds : List (Option PyVal)) (c c' : Conn),
    warehouseWF c.wh → ds.foldlM processRecord c = .ok c' →
    warehouseWF c'.wh ∧ whExt c.wh c'.wh ∧ (∀ r ∈ ds, recFits r c'.wh) ∧
    (∀ v, cntDimRows c'.wh.geo v ≤ max 1 (cntDimRows c.wh.geo v)) ∧
    (∀ x ∈ c'.wh.fact.rows, x ∈ c.wh.fact.rows ∨
      ∃ k vs, x.2.geoKey = some k ∧ (k, vs) ∈ c'.wh.geo.rows) := by
  intro ds
  induction ds with
  | nil =>
    intro c c' hwf h
    have hc : c = c' := by
      simpa [List.foldlM, pure, Except.pure] using h
    subst hc
    exact ⟨hwf, whExt_refl _, by simp, fun v => le_max_of_le_right (le_refl _),
      fun x hx => Or.inl hx⟩
  | cons r ds ih =>
    intro c c' hwf h
    rw [List.foldlM_cons] at h
    cases h1 : processRecord c r with
    | error e =>
      rw [h1] at h
      exact absurd h (by simp [Bind.bind, Except.bind])
    | ok c1 =>
      rw [h1] at h
      simp only [Bind.bind, Except.bind] at h
      obtain ⟨hwf1, hext1, hfit1, hcnt1, hprov1⟩ := processRecord_establishes hwf h1
      obtain ⟨hwf2, hext2, hfits2, hcnt2, hprov2⟩ := ih c1 c' hwf1 h
      refine ⟨hwf2, whExt_trans hext1 hext2, ?_, ?_, ?_⟩
      · intro s hs
        rcases List.mem_cons.mp hs with rfl | hs'
        · exact recFits_persist hfit1 hext2
        · exact hfits2 s hs'
      · intro v
        exact le_trans (hcnt2 v) (max_le (le_max_left _ _) (hcnt1 v))
      · intro x hx
        rcases hprov2 x hx with hx1 | hnew
        · rcases hprov1 x hx1 with hx0 | ⟨k, vs, hgk, hmem⟩
          · exact Or.inl hx0
          · exact Or.inr ⟨k, vs, hgk, mem_of_listExt hext2.2.1 hmem⟩
        · exact Or.inr hnew

theorem run_replay : ∀ (ds : List (Option PyVal)) (w : Warehouse) (lr : Nat),
    (∀ r ∈ ds, recFits r w) →
    ds.foldlM processRecord ⟨w, lr⟩ = .ok ⟨w, lr⟩ := by
  intro ds
  induction ds with
  | nil => intro w lr _; rfl
  | cons r ds ih =>
    intro w lr h
    rw [List.foldlM_cons, processRecord_of_recFits (h r (List.mem_cons_self r ds)) lr]
    exact ih w lr (fun s hs => h s (List.mem_cons_of_mem r hs))

theorem warehouseWF_empty : warehouseWF emptyWarehouse := by
  refine ⟨?_, ?_, ?_, ?_, ?_⟩ <;> intro r hr <;> simp [emptyWarehouse, emptyDim] at hr

/-- C1: the event loader is idempotent: a second run of
`load_events_from_staging` over the identical staged dataset leaves the
warehouse produced by the first run exactly as it is — the same rows (hence
the same row counts) in the fact table, every dimension table and every
bridge table — because every record's report id either is falsy (skipped
again) or resolves to the existing fact row instead of inserting a second
one, and all dimension and bridge writes re-find their existing rows. -/
theorem load_events_idempotent {ds : List (Option PyVal)} {W0 W1 : Warehouse}
    (hwf : warehouseWF W0) (h : loadEvents ds W0 = .ok W1) :
    loadEvents ds W1 = .ok W1 := by
  unfold loadEvents at h ⊢
  cases hfold : ds.foldlM processRecord (⟨W0, 0⟩ : Conn) with
  | error e =>
    rw [hfold] at h
    exact absurd h (by simp)
  | ok c =>
    rw [hfold] at h
    have hW : W1 = c.wh := by
      simpa using h.symm
    obtain ⟨hwf1, hext, hfits, hcnt, hprov⟩ := run_establish ds ⟨W0, 0⟩ c hwf hfold
    subst hW
    rw [run_replay ds c.wh 0 (fun r hr => hfits r hr)]

theorem load_events_idempotent_witness :
    warehouseWF emptyWarehouse ∧
    loadEvents [some exR2] emptyWarehouse = .ok exW2 ∧
    loadEvents [some exR2] exW2 = .ok exW2 :=
  ⟨warehouseWF_empty, by decide, load_events_idempotent warehouseWF_empty (by decide)⟩

/-- C10: every fact row the event loader inserts carries a non-null
geography key that resolves to a `dim_geo` row (the loader get-or-creates a
geography row for every loaded event, even when state and country are both
absent, while the breed key may stay null), and the run adds at most one
`dim_geo` row per distinct (state, country) tuple — in particular all
events with no location share the single `(NULL, NULL)` geography row. -/
theorem fact_rows_always_have_geo {ds : List (Option PyVal)} {W0 W1 : Warehouse}
    (hwf : warehouseWF W0) (h : loadEvents ds W0 = .ok W1) :
    (∀ x ∈ W1.fact.rows, x ∈ W0.fact.rows ∨
      ∃ k vs, x.2.geoKey = some k ∧ (k, vs) ∈ W1.geo.rows) ∧
    (∀ v, cntDimRows W1.geo v ≤ max 1 (cntDimRows W0.geo v)) := by
  unfold loadEvents at h
  cases hfold : ds.foldlM processRecord (⟨W0, 0⟩ : Conn) with
  | error e =>
    rw [hfold] at h
    exact absurd h (by simp)
  | ok c =>
    rw [hfold] at h
    have hW : W1 = c.wh := by
      simpa using h.symm
    subst hW
    obtain ⟨hwf1, hext, hfits, hcnt, hprov⟩ := run_establish ds ⟨W0, 0⟩ c hwf hfold
    exact ⟨hprov, hcnt⟩

theorem fact_rows_always_have_geo_witness :
    warehouseWF emptyWarehouse ∧
    loadEvents [some exR1, some exR1] emptyWarehouse = .ok exW1 ∧
    cntDimRows exW1.geo [PyVal.none, PyVal.none] ≤
      max 1 (cntDimRows emptyWarehouse.geo [PyVal.none, PyVal.none]) :=
  ⟨warehouseWF_empty, by decide,
   (fact_rows_always_have_geo warehouseWF_empty
     (by decide : loadEvents [some exR1, some exR1] emptyWarehouse = .ok exW1)).2
     [PyVal.none, PyVal.none]⟩

/-- C7: bridge relations are sets over (event_key, target_key): inserting
the same pair any positive number of times into a bridge table not yet
holding it leaves exactly one row for that pair, a duplicate insert attempt
is a no-op, and loading a record whose reaction name occurs twice yields a
single bridge pair. -/
theorem bridge_pairs_no_duplicates (b : BridgeTable) (p : Nat × Nat)
    (lrs : List Nat) (h0 : p ∉ b.pairs) (hn : lrs ≠ []) :
    (List.count p (insertSamePair b p lrs).pairs = 1 ∧
      ∀ (bb : BridgeTable) (lr : Nat), p ∈ bb.pairs → bridgeInsert bb lr p = (bb, lr)) ∧
    (loadEvents [some exR2] emptyWarehouse = .ok exW2 ∧
      List.count (1, 1) exW2.bridgeReaction.pairs = 1) := by
  refine ⟨⟨?_, fun bb lr hm => bridgeInsert_mem hm⟩, by decide, by decide⟩
  cases lrs with
  | nil => exact absurd rfl hn
  | cons lr lrs =>
    have h1 : bridgeInsert b lr p = (⟨b.pairs ++ [p]⟩, b.pairs.length + 1) := by
      simp [bridgeInsert, h0]
    have hstep : insertSamePair b p (lr :: lrs) =
        insertSamePair ⟨b.pairs ++ [p]⟩ p lrs := by
      simp only [insertSamePair, List.foldl_cons, h1]
    have hmem : p ∈ (⟨b.pairs ++ [p]⟩ : BridgeTable).pairs := by
      simp
    have hfix : insertSamePair ⟨b.pairs ++ [p]⟩ p lrs = ⟨b.pairs ++ [p]⟩ := by
      unfold insertSamePair
      refine foldl_fixpoint _ lrs _ (fun x _ => ?_)
      rw [bridgeInsert_mem hmem]
    rw [hstep, hfix]
    have hz : List.count p b.pairs = 0 := List.count_eq_zero.mpr h0
    simp [List.count_append, hz]

theorem bridge_pairs_no_duplicates_witness :
    ((1, 1) : Nat × Nat) ∉ (⟨[]⟩ : BridgeTable).pairs ∧ ([0, 0, 0] : List Nat) ≠ [] ∧
    List.count (1, 1) (insertSamePair ⟨[]⟩ (1, 1) [0, 0, 0]).pairs = 1 :=
  ⟨by decide, by decide,
   (bridge_pairs_no_duplicates ⟨[]⟩ (1, 1) [0, 0, 0] (by decide) (by decide)).1.1⟩

/-- C4 counterexample: an unparseable staged payload (`NULL` raw text, the
`json.loads` failure) raises and aborts the whole batch — the well-formed
record behind it, which alone loads fine, is never reached — refuting the
claim that a bad record is skipped and the batch continues (nor does any
skip counter exist in the loader). -/
theorem unparseable_record_aborts_batch :
    loadEvents [Option.none, some exR1] emptyWarehouse = .error "JSONDecodeError" ∧
    loadEvents [some exR1] emptyWarehouse = .ok exW1 := by
  exact ⟨by decide, by decide⟩

/-- C4 (amended): a staged record missing its report id (falsy
`unique_number` and `report_id`) is skipped — the per-record body returns
the connection unchanged and the batch continues — while a record whose
payload fails to parse as JSON raises `JSONDecodeError`, which propagates
out of the loader and aborts the batch; no count of skipped records is
tracked. -/
theorem malformed_record_policy :
    (∀ (c : Conn) (fs : List (String × PyVal)),
      truthy (pyOr (pyGet fs "unique_number") (pyGet fs "report_id")) = false →
      processRecord c (some (.dict fs)) = .ok c) ∧
    (∀ c : Conn, processRecord c Option.none = .error "JSONDecodeError") := by
  constructor
  · intro c fs h
    simp [processRecord, processParsed, h]
  · intro c
    rfl

theorem malformed_record_policy_witness :
    truthy (pyOr (pyGet [("report_id", PyVal.str "")] "unique_number")
      (pyGet [("report_id", PyVal.str "")] "report_id")) = false ∧
    processRecord ⟨emptyWarehouse, 0⟩ (some (.dict [("report_id", PyVal.str "")])) =
      .ok ⟨emptyWarehouse, 0⟩ :=
  ⟨by decide, malformed_record_policy.1 ⟨emptyWarehouse, 0⟩
    [("report_id", PyVal.str "")] (by decide)⟩
